import Mathlib

/-! # Directory synchronizer (`directory_sync.c`): embedding and verified properties

A shallow embedding of the directory synchronizer: the snapshot data model,
the snapshotter `scan_directory`, the diff engine `compare_directories`, the
sender `send_changes_to_server`, the receive loop of `server_main`, the
applier `apply_changes`, and the loop of `watch_directory`.

Conventions of the embedding.

* A C `char` buffer is a list of bytes (`Nat`, each below 256). A C string is
  read from such a buffer up to its first NUL byte or the end of the list.
* `int`, `long`, `time_t` values are `Int`; `size_t` values are `Nat`.
* The C enumeration `sync_operation` is an `int` with three named values.
* A `for` loop over an array is a structural recursion over the list of the
  array's elements; the records written so far stand for the first
  `*change_count` slots of the output buffer.
-/

namespace DirectorySync

/-! ## Constants (lines 20-22) -/

def BUFFER_SIZE : Nat := 1024

def MAX_PATH_LENGTH : Nat := 256

/-! ## Data model (lines 24-45) -/

/-- The C enumeration `sync_operation`: an `int`. -/
abbrev sync_operation := Int

def SYNC_CREATE : sync_operation := 0

def SYNC_MODIFY : sync_operation := 1

def SYNC_DELETE : sync_operation := 2

/-- The C struct `file_info`. -/
structure file_info where
  path : List Nat
  last_modified : Int
  size : Int
  is_directory : Int
deriving DecidableEq, Repr

/-- The C struct `sync_record`. -/
structure sync_record where
  operation : sync_operation
  file : file_info
  data : List Nat
  data_size : Nat
deriving DecidableEq, Repr

/-! ## Case-insensitive string comparison (`_stricmp` of the C runtime) -/

/-- The C `tolower` on a byte, in the "C" locale: `A`..`Z` go to `a`..`z`. -/
def tolower (c : Nat) : Nat :=
  if 65 ≤ c ∧ c ≤ 90 then c + 32 else c

/-- The C runtime's `_stricmp`: compares two C strings byte by byte after
lower-casing, stopping at the first difference or at the terminating NUL; the
end of the list stands for the terminator. The result is the difference of the
two lower-cased bytes at the stopping point, so it is `0` exactly when the
strings are equal ignoring case. -/
def _stricmp : List Nat → List Nat → Int
  | [], [] => 0
  | [], b :: _ => 0 - (tolower b : Int)
  | a :: _, [] => (tolower a : Int) - 0
  | a :: as, b :: bs =>
    if tolower a = tolower b then
      if a = 0 then 0 else _stricmp as bs
    else (tolower a : Int) - (tolower b : Int)

/-! ## The diff engine `compare_directories` (lines 303-357) -/

/-- The two assignments `(*changes)[*change_count].operation = op;
(*changes)[*change_count].file = f;` on slot `k` of the allocated block: the
other fields of the slot (`data`, `data_size`) keep what the block held. -/
def store_change (block : Nat → sync_record) (k : Nat) (op : sync_operation)
    (f : file_info) : sync_record :=
  { block k with operation := op, file := f }

/-- The inner loop of the first pass (lines 318-330) for the entry
`new_file = new_files[i]`: walks `old_files` up to the first entry whose path
equals `new_file.path` ignoring case, appends a `SYNC_MODIFY` record when the
entry is newer or of another size, and stops (`break`). Returns `found` and the
records written so far. -/
def scan_old_files (block : Nat → sync_record) (new_file : file_info) :
    List file_info → List sync_record → Bool × List sync_record
  | [], changes => (false, changes)
  | old_file :: rest, changes =>
    if _stricmp new_file.path old_file.path = 0 then
      if new_file.last_modified > old_file.last_modified ∨ new_file.size ≠ old_file.size then
        (true, changes ++ [store_change block changes.length SYNC_MODIFY new_file])
      else (true, changes)
    else scan_old_files block new_file rest changes

/-- The first pass (lines 316-338): for every entry of `new_files` in order,
the inner loop, then a `SYNC_CREATE` record when no entry of `old_files`
matched. -/
def detect_new_and_modified (block : Nat → sync_record) (old_files : List file_info) :
    List file_info → List sync_record → List sync_record
  | [], changes => changes
  | new_file :: rest, changes =>
    match scan_old_files block new_file old_files changes with
    | (found, changes1) =>
      if found = false then
        detect_new_and_modified block old_files rest
          (changes1 ++ [store_change block changes1.length SYNC_CREATE new_file])
      else detect_new_and_modified block old_files rest changes1

/-- The inner loop of the second pass (lines 343-348): is there an entry of
`new_files` whose path equals `old_file.path` ignoring case. -/
def scan_new_files (old_file : file_info) : List file_info → Bool
  | [] => false
  | new_file :: rest =>
    if _stricmp old_file.path new_file.path = 0 then true
    else scan_new_files old_file rest

/-- The second pass (lines 341-356): for every entry of `old_files` in order,
a `SYNC_DELETE` record when no entry of `new_files` matched. -/
def detect_deleted (block : Nat → sync_record) (new_files : List file_info) :
    List file_info → List sync_record → List sync_record
  | [], changes => changes
  | old_file :: rest, changes =>
    if scan_new_files old_file new_files = false then
      detect_deleted block new_files rest
        (changes ++ [store_change block changes.length SYNC_DELETE old_file])
    else detect_deleted block new_files rest changes

/-- The function `compare_directories`. `malloc_result` is what `malloc`
returned: `none` for a null pointer (the function then returns with
`*change_count = 0`), `some block` for a block whose slot `k` initially holds
`block k`. The result is the list of the first `*change_count` slots of
`*changes`. -/
def compare_directories (malloc_result : Option (Nat → sync_record))
    (old_files new_files : List file_info) : List sync_record :=
  match malloc_result with
  | none => []
  | some block =>
    detect_deleted block new_files old_files
      (detect_new_and_modified block old_files new_files [])

/-! ## Vocabulary of the claims about the diff -/

/-- A snapshot's paths are unique under case-insensitive comparison. -/
def unique_paths (files : List file_info) : Prop :=
  files.Pairwise (fun a b => _stricmp a.path b.path ≠ 0)

/-- The records of a change list whose path equals `p` ignoring case. -/
def records_for (p : List Nat) (changes : List sync_record) : List sync_record :=
  changes.filter (fun r => decide (_stricmp r.file.path p = 0))

/-- A C string given by the bytes of its characters (for concrete inputs). -/
def cstr (s : String) : List Nat := s.toList.map Char.toNat

/-- A block of zeroed memory, for concrete inputs. -/
def zero_block : Nat → sync_record :=
  fun _ => { operation := 0, file := { path := [], last_modified := 0, size := 0, is_directory := 0 },
             data := [], data_size := 0 }

instance (files : List file_info) : Decidable (unique_paths files) := by
  unfold unique_paths
  infer_instance

/-- The comparison key of a C string: its bytes up to the terminator, lower-cased. -/
def fold_key (p : List Nat) : List Nat :=
  (p.takeWhile (fun c => decide (c ≠ 0))).map tolower

/-! ## The diff as a list of (operation, entry) pairs -/

/-- The operation and the entry a record carries. -/
def sync_record.sig (r : sync_record) : sync_operation × file_info := (r.operation, r.file)

/-- Writes the given (operation, entry) pairs to the slots `k`, `k+1`, ... -/
def stamp (block : Nat → sync_record) : Nat → List (sync_operation × file_info) → List sync_record
  | _, [] => []
  | k, x :: xs => store_change block k x.1 x.2 :: stamp block (k + 1) xs

/-- What the first pass emits for one entry of `new_files`. -/
def new_entry_change (old_files : List file_info) (n : file_info) :
    Option (sync_operation × file_info) :=
  match old_files.find? (fun o => decide (_stricmp n.path o.path = 0)) with
  | none => some (SYNC_CREATE, n)
  | some o =>
    if n.last_modified > o.last_modified ∨ n.size ≠ o.size then some (SYNC_MODIFY, n) else none

/-- The pairs of the first pass. -/
def new_changes (old_files new_files : List file_info) : List (sync_operation × file_info) :=
  new_files.filterMap (new_entry_change old_files)

/-- The pairs of the second pass. -/
def deleted_changes (old_files new_files : List file_info) : List (sync_operation × file_info) :=
  (old_files.filter (fun o => !(new_files.any (fun n => decide (_stricmp o.path n.path = 0))))).map
    (fun o => (SYNC_DELETE, o))

/-- Two bytes are equal, or are the upper-case and the lower-case form of one
ASCII letter. -/
def same_letter (a b : Nat) : Bool :=
  a == b || (decide (65 ≤ a ∧ a ≤ 90) && b == a + 32) || (decide (65 ≤ b ∧ b ≤ 90) && a == b + 32)

/-- Two paths have the same length and differ at most in the case of ASCII
letters. -/
def differs_only_in_case : List Nat → List Nat → Bool
  | [], [] => true
  | a :: as, b :: bs => same_letter a b && differs_only_in_case as bs
  | _, _ => false

/-! ## The dispatch of `apply_changes` on the target's set of paths (lines 417-460) -/

/-- The switch of `apply_changes` for one record, on the list of paths present
in the target directory, each entry of the target being named by the source
path it mirrors and each file-system call taken to succeed: `SYNC_CREATE` and
`SYNC_MODIFY` (`_mkdir`, or `CreateFile` with `CREATE_ALWAYS`) make the path
present, `SYNC_DELETE` (`RemoveDirectory`, `DeleteFile`) makes it absent, any
other operation value matches no case. File names are compared ignoring case,
as the file system does. -/
def apply_dispatch (target : List (List Nat)) (r : sync_record) : List (List Nat) :=
  if r.operation = SYNC_CREATE ∨ r.operation = SYNC_MODIFY then r.file.path :: target
  else if r.operation = SYNC_DELETE then
    target.filter (fun q => !decide (_stricmp q r.file.path = 0))
  else target

/-- The loop of `apply_changes` over the records in list order, on the set of
paths present in the target. -/
def apply_changes_paths (target : List (List Nat)) (changes : List sync_record) :
    List (List Nat) :=
  changes.foldl apply_dispatch target

/-- The path `p` is present (ignoring case) in a set of paths. -/
def path_present (paths : List (List Nat)) (p : List Nat) : Bool :=
  paths.any (fun q => decide (_stricmp q p = 0))

/-! ## The wire format: raw structs in the layout of 64-bit Windows

`send` and `recv` move the raw bytes of an `int` and of a `sync_record`. The
layout is the one of the 64-bit Windows ABI, little-endian: `int`, `long` and
the enumeration take 4 bytes, `time_t` and `size_t` take 8 bytes, and a field
is aligned to its size. In `sync_record`: `operation` at offset 0, 4 bytes of
padding, `file.path` at 8, `file.last_modified` at 264, `file.size` at 272,
`file.is_directory` at 276, `data` at 280, `data_size` at 1304; the size of
the struct is 1312. -/

/-- The `w` little-endian bytes of an unsigned value. -/
def to_le_bytes : Nat → Nat → List Nat
  | 0, _ => []
  | w + 1, n => n % 256 :: to_le_bytes w (n / 256)

/-- The unsigned value of little-endian bytes. -/
def of_le_bytes : List Nat → Nat
  | [] => 0
  | b :: bs => b + 256 * of_le_bytes bs

/-- The `w` bytes of a signed integer in two's complement. -/
def int_to_bytes (w : Nat) (i : Int) : List Nat :=
  to_le_bytes w (i % (2 ^ (8 * w) : Int)).toNat

/-- The signed integer held by `w` bytes in two's complement. -/
def int_of_bytes (w : Nat) (bs : List Nat) : Int :=
  if of_le_bytes bs < 2 ^ (8 * w - 1) then (of_le_bytes bs : Int)
  else (of_le_bytes bs : Int) - (2 ^ (8 * w) : Int)

/-- The expression `sizeof(sync_record)`. -/
def sizeof_sync_record : Nat := 1312

/-- The bytes of a `sync_record` in memory (padding bytes shown as 0). -/
def encode_record (r : sync_record) : List Nat :=
  int_to_bytes 4 r.operation ++ [0, 0, 0, 0] ++ r.file.path ++
    int_to_bytes 8 r.file.last_modified ++ int_to_bytes 4 r.file.size ++
    int_to_bytes 4 r.file.is_directory ++ r.data ++ to_le_bytes 8 r.data_size

/-- The `sync_record` held by the bytes of a struct in memory. -/
def decode_record (bytes : List Nat) : sync_record :=
  { operation := int_of_bytes 4 (bytes.take 4)
    file :=
      { path := (bytes.drop 8).take MAX_PATH_LENGTH
        last_modified := int_of_bytes 8 ((bytes.drop 264).take 8)
        size := int_of_bytes 4 ((bytes.drop 272).take 4)
        is_directory := int_of_bytes 4 ((bytes.drop 276).take 4) }
    data := (bytes.drop 280).take BUFFER_SIZE
    data_size := of_le_bytes ((bytes.drop 1304).take 8) }

/-- The fields of a record have the sizes of their C types: `path` and `data`
are buffers of 256 and 1024 bytes, the integers are in the range of `int`,
`time_t`, `long` and `size_t`. -/
def c_typed (r : sync_record) : Prop :=
  -(2 ^ 31 : Int) ≤ r.operation ∧ r.operation < 2 ^ 31 ∧
  r.file.path.length = MAX_PATH_LENGTH ∧
  -(2 ^ 63 : Int) ≤ r.file.last_modified ∧ r.file.last_modified < 2 ^ 63 ∧
  -(2 ^ 31 : Int) ≤ r.file.size ∧ r.file.size < 2 ^ 31 ∧
  -(2 ^ 31 : Int) ≤ r.file.is_directory ∧ r.file.is_directory < 2 ^ 31 ∧
  r.data.length = BUFFER_SIZE ∧
  r.data_size < 2 ^ 64

/-! ## The sender `send_changes_to_server` (lines 469-557) -/

/-- What the sender depends on outside the program: whether `socket` and
`connect` succeed, and whether the `k`-th call of `send` (counted from 0)
succeeds. -/
structure network where
  connect_ok : Bool
  send_ok : Nat → Bool

/-- One successful call of `send` and the buffer it transmitted. -/
inductive sent_item where
  | count (change_count : Int)
  | record (r : sync_record)
  | file_data (bytes : List Nat)
deriving DecidableEq, Repr

/-- The bytes a call of `send` puts on the connection. -/
def sent_item.bytes : sent_item → List Nat
  | .count n => int_to_bytes 4 n
  | .record r => encode_record r
  | .file_data bytes => bytes

/-- The byte stream of a sequence of `send` calls. -/
def wire_stream (sent : List sent_item) : List Nat :=
  sent.flatMap sent_item.bytes

/-- Lines 504-534: loads the content of the record's file into `data` for a
`SYNC_CREATE` or `SYNC_MODIFY` of a non-directory, and sets `data_size`.
`fs p` is the content of the file `CreateFile` opens at path `p`, `none` when
it does not open; `ReadFile` stores at most `BUFFER_SIZE` bytes at the start
of `data` and reports their number. -/
def load_file_data (fs : List Nat → Option (List Nat)) (r : sync_record) : sync_record :=
  if (r.operation = SYNC_CREATE ∨ r.operation = SYNC_MODIFY) ∧ r.file.is_directory = 0 then
    match fs r.file.path with
    | some content =>
      { r with
        data := content.take BUFFER_SIZE ++ r.data.drop (content.take BUFFER_SIZE).length
        data_size := (content.take BUFFER_SIZE).length }
    | none => { r with data_size := 0 }
  else { r with data_size := 0 }

/-- The loop of lines 503-553 from record `changes[i]` on, `k` calls of `send`
having been made: the successful `send` calls in order, and the value the
function returns (`0` at the first failing `send`, `1` at the end). The payload
is the first `data_size` bytes of `data`; `data_size` is at most `BUFFER_SIZE`
here, so its conversion to `int` at line 546 leaves it unchanged. -/
def send_loop (fs : List Nat → Option (List Nat)) (net : network) :
    List sync_record → Nat → List sent_item × Int
  | [], _ => ([], 1)
  | r :: rest, k =>
    if net.send_ok k = false then ([], 0)
    else if (load_file_data fs r).data_size > 0 then
      if net.send_ok (k + 1) = false then ([sent_item.record (load_file_data fs r)], 0)
      else
        match send_loop fs net rest (k + 2) with
        | (sent, result) =>
          (sent_item.record (load_file_data fs r) ::
            sent_item.file_data
              ((load_file_data fs r).data.take (load_file_data fs r).data_size) :: sent, result)
    else
      match send_loop fs net rest (k + 1) with
      | (sent, result) => (sent_item.record (load_file_data fs r) :: sent, result)

/-- The function `send_changes_to_server` on the array `changes` of
`change_count = changes.length` records: the successful `send` calls in order
and the return value. -/
def send_changes_to_server (fs : List Nat → Option (List Nat)) (net : network)
    (changes : List sync_record) : List sent_item × Int :=
  if net.connect_ok = false then ([], 0)
  else if net.send_ok 0 = false then ([], 0)
  else
    match send_loop fs net changes 1 with
    | (sent, result) => (sent_item.count (changes.length : Int) :: sent, result)

/-! ## The receive loop of `server_main` (lines 157-187) -/

/-- The dimension of the array `changes[100]` (line 106). -/
def MAX_CHANGES : Nat := 100

/-- A call `recv(sock, buf, len, 0)` on a connection whose remaining bytes are
`stream`: the bytes received and the bytes left. It delivers `len` bytes when
the stream holds that many, all that is left when it holds fewer, and nothing
(return value 0) once the stream is exhausted. How the transport cuts the
stream into segments is not part of the model. -/
def recv (stream : List Nat) (len : Nat) : List Nat × List Nat :=
  (stream.take len, stream.drop len)

/-- The conversion of an unsigned 64-bit value to a 32-bit signed integer, its
low 32 bits in two's complement: a `size_t` passed as the `int` length of
`recv`, and the cast `(long)file_size.QuadPart`. -/
def size_t_to_int (n : Nat) : Int :=
  int_of_bytes 4 (to_le_bytes 4 n)

/-- The content of a buffer after `got` was stored at its start: bytes beyond
the old length of the buffer lie outside it. -/
def overlay (got old : List Nat) : List Nat :=
  got ++ old.drop got.length

/-- A store of the receive loop: `record i n` is `n` bytes stored at
`&changes[i]`, `payload i n` is `n` bytes stored at `changes[i].data`. -/
inductive store_event where
  | record (i : Nat) (n : Nat)
  | payload (i : Nat) (n : Nat)
deriving DecidableEq, Repr

/-- The state of the receive loop: the bytes of the connection not yet
received, the memory at `changes[i]` for every `i` (the array is the slots
below `MAX_CHANGES`; a higher slot is the memory behind it), and the stores
made so far. -/
structure server_state where
  stream : List Nat
  changes : Nat → sync_record
  stores : List store_event

/-- The loop of lines 167-182 from index `i` on, with `remaining =
change_count - i` iterations to go. A `recv` that delivers nothing (it returns
0, or `SOCKET_ERROR` for a length that is not positive) leaves the loop
(`break`). -/
def receive_loop : Nat → Nat → server_state → server_state
  | 0, _, st => st
  | remaining + 1, i, st =>
    match recv st.stream sizeof_sync_record with
    | (got, rest) =>
      if got.length = 0 then st
      else
        let r := decode_record (overlay got (encode_record (st.changes i)))
        let stores1 := st.stores ++ [store_event.record i got.length]
        if r.data_size > 0 then
          match recv rest (size_t_to_int r.data_size).toNat with
          | (got2, rest2) =>
            if got2.length = 0 then
              { stream := rest2, changes := Function.update st.changes i r, stores := stores1 }
            else
              receive_loop remaining (i + 1)
                { stream := rest2
                  changes := Function.update st.changes i { r with data := overlay got2 r.data }
                  stores := stores1 ++ [store_event.payload i got2.length] }
        else
          receive_loop remaining (i + 1)
            { stream := rest, changes := Function.update st.changes i r, stores := stores1 }

/-- What one accepted connection comes to: the state after the receive loop,
the value of `change_count`, and the count handed to `apply_changes` at line
185 (`none` when the connection is abandoned at line 162). -/
structure connection_outcome where
  state : server_state
  change_count : Int
  applied : Option Int

/-- One iteration of the accept loop, lines 157-187, on a connection that
delivers `stream`; `change_count` and `changes` are the values the variables
hold from before. -/
def serve_connection (change_count : Int) (changes : Nat → sync_record) (stream : List Nat) :
    connection_outcome :=
  match recv stream 4 with
  | (got, rest) =>
    if got.length = 0 then
      { state := { stream := rest, changes := changes, stores := [] }
        change_count := change_count, applied := none }
    else
      let change_count1 := int_of_bytes 4 (overlay got (int_to_bytes 4 change_count))
      { state := receive_loop change_count1.toNat 0
          { stream := rest, changes := changes, stores := [] }
        change_count := change_count1, applied := some change_count1 }

/-! ## Vocabulary of the claims about the codec -/

/-- The `send` calls for one record: the record, then its payload when
`data_size > 0` (lines 536-552). -/
def frame (r : sync_record) : List sent_item :=
  sent_item.record r ::
    (if r.data_size > 0 then [sent_item.file_data (r.data.take r.data_size)] else [])

/-- The bytes on the wire for one record. -/
def frame_bytes (r : sync_record) : List Nat :=
  encode_record r ++ r.data.take r.data_size

/-- The stores of a receive loop that reads every record whole, from index `i`
on: the record, then `data_size` payload bytes when `data_size > 0`. -/
def expected_stores : Nat → List sync_record → List store_event
  | _, [] => []
  | i, r :: rs =>
    store_event.record i sizeof_sync_record ::
      ((if r.data_size > 0 then [store_event.payload i r.data_size] else []) ++
        expected_stores (i + 1) rs)

/-- The index of `changes` a store goes to. -/
def store_event.index : store_event → Nat
  | .record i _ => i
  | .payload i _ => i

/-- A path buffer of `MAX_PATH_LENGTH` bytes holding a C string, zero-filled
(for concrete inputs). -/
def path_buffer (s : String) : List Nat :=
  cstr s ++ List.replicate (MAX_PATH_LENGTH - (cstr s).length) 0

/-! ## Concrete inputs -/

/-- A file system with one readable file, `w\a.txt`, of 5 bytes. -/
def example_fs : List Nat → Option (List Nat) :=
  fun p => if p = path_buffer "w\\a.txt" then some (cstr "hello") else none

/-- A connection on which `socket`, `connect` and every `send` succeed. -/
def reliable_net : network := { connect_ok := true, send_ok := fun _ => true }

/-- A `SYNC_CREATE` record of the file `w\a.txt`, as `compare_directories`
leaves it in a zeroed block. -/
def example_create : sync_record :=
  { operation := SYNC_CREATE
    file := { path := path_buffer "w\\a.txt", last_modified := 1700000000, size := 5,
              is_directory := 0 }
    data := List.replicate BUFFER_SIZE 0
    data_size := 0 }

/-- A `SYNC_DELETE` record of the file `w\b.txt` whose `data_size` field holds
a stale value. -/
def example_delete : sync_record :=
  { operation := SYNC_DELETE
    file := { path := path_buffer "w\\b.txt", last_modified := 1600000000, size := 3,
              is_directory := 0 }
    data := List.replicate BUFFER_SIZE 0
    data_size := 77 }

/-! ## C strings and the C library calls on them -/

/-- The C string a buffer holds: its bytes up to the first NUL. -/
def c_string (buf : List Nat) : List Nat :=
  buf.takeWhile (fun c => decide (c ≠ 0))

/-- The call `strchr(s, c)` (and `strstr(s, "\\")` for `c` the backslash): the
rest of the string from the first occurrence of `c` on, `none` when the
terminator comes first. -/
def strchr : List Nat → Nat → Option (List Nat)
  | [], _ => none
  | x :: xs, c =>
    if x = c then some (x :: xs)
    else if x = 0 then none
    else strchr xs c

/-- The call `strrchr(s, c)`: the rest of the string from the last occurrence
of `c` before the terminator on. -/
def strrchr : List Nat → Nat → Option (List Nat)
  | [], _ => none
  | x :: xs, c =>
    if x = 0 then none
    else
      match strrchr xs c with
      | some found => some found
      | none => if x = c then some (x :: xs) else none

/-- The call `snprintf(buf, n, "%s\\%s", a, b)`: the string left in `buf`, at
most `n - 1` characters. -/
def snprintf_joined (n : Nat) (a b : List Nat) : List Nat :=
  (c_string a ++ [92] ++ c_string b).take (n - 1)

/-- The call `strncpy(dst, src, n)`: the `n` bytes stored into `dst`, the
string cut to `n` characters and filled up with NUL bytes (no terminator is
stored when the string has `n` characters or more). -/
def strncpy (src : List Nat) (n : Nat) : List Nat :=
  (c_string src).take n ++ List.replicate (n - (c_string src).length) 0

/-- The function `normalize_path` (lines 196-206): a copy of the string with
every `/` replaced by a backslash. -/
def normalize_path (path : List Nat) : List Nat :=
  (c_string path).map (fun c => if c = 47 then 92 else c)

/-! ## The snapshotter `scan_directory` (lines 209-300) -/

/-- The fields of `WIN32_FIND_DATA` the scan reads; the `DWORD` fields hold
values below `2 ^ 32`. -/
structure find_data where
  cFileName : List Nat
  dwFileAttributes : Nat
  dwLowDateTime : Nat
  dwHighDateTime : Nat
  nFileSizeLow : Nat
  nFileSizeHigh : Nat
deriving DecidableEq, Repr

def FILE_ATTRIBUTE_DIRECTORY : Nat := 16

/-- The test `strcmp(name, ".") == 0 || strcmp(name, "..") == 0` (lines 233, 263). -/
def is_dot_entry (d : find_data) : Bool :=
  decide (c_string d.cFileName = [46]) || decide (c_string d.cFileName = [46, 46])

/-- Line 278 on the 64-bit value `uli.QuadPart`: `QuadPart / 10000000ULL -
11644473600ULL` in unsigned 64-bit arithmetic, stored into the signed 64-bit
`time_t`. -/
def filetime_to_time_t (quad_part : Nat) : Int :=
  int_of_bytes 8
    (to_le_bytes 8 (((quad_part % 2 ^ 64) / 10000000 + (2 ^ 64 - 11644473600)) % 2 ^ 64))

/-- The value of `ULARGE_INTEGER.QuadPart` for the two halves. -/
def quad_part (low high : Nat) : Nat :=
  (high % 2 ^ 32) * 2 ^ 32 + low % 2 ^ 32

/-- Lines 268-290: the `file_info` stored for one directory entry. -/
def scanned_entry (normalized_dir : List Nat) (d : find_data) : file_info :=
  { path := strncpy (snprintf_joined MAX_PATH_LENGTH normalized_dir d.cFileName) MAX_PATH_LENGTH
    last_modified := filetime_to_time_t (quad_part d.dwLowDateTime d.dwHighDateTime)
    size :=
      if d.dwFileAttributes &&& FILE_ATTRIBUTE_DIRECTORY ≠ 0 then 0
      else size_t_to_int (quad_part d.nFileSizeLow d.nFileSizeHigh)
    is_directory := if d.dwFileAttributes &&& FILE_ATTRIBUTE_DIRECTORY ≠ 0 then 1 else 0 }

/-- The first `do ... while` loop (lines 232-237): the number of entries other
than `.` and `..`. -/
def count_entries : List find_data → Nat
  | [] => 0
  | d :: rest => (if is_dot_entry d then 0 else 1) + count_entries rest

/-- The second `do ... while` loop (lines 262-293) from the entry at hand on;
`files` are the slots filled so far, so `i = files.length`. A `continue` goes
to the loop condition `FindNextFile(...) && i < *file_count`. -/
def collect_entries (normalized_dir : List Nat) (file_count : Nat) :
    List find_data → List file_info → List file_info
  | [], files => files
  | d :: rest, files =>
    if is_dot_entry d then
      if files.length < file_count then collect_entries normalized_dir file_count rest files
      else files
    else if files.length ≥ file_count then files
    else if files.length + 1 < file_count then
      collect_entries normalized_dir file_count rest (files ++ [scanned_entry normalized_dir d])
    else files ++ [scanned_entry normalized_dir d]

/-- The function `scan_directory`: the first `*file_count` slots of `*files`
on return. `first_pass` and `second_pass` are the entries the two
enumerations deliver, from `FindFirstFile` on (the empty list when
`FindFirstFile` returns `INVALID_HANDLE_VALUE`); `malloc_ok` tells whether
`malloc` returned a block. The function returns nothing else: no status
reaches the caller. -/
def scan_directory (dir_path : List Nat) (first_pass second_pass : List find_data)
    (malloc_ok : Bool) : List file_info :=
  match first_pass with
  | [] => []
  | _ :: _ =>
    if malloc_ok = false then []
    else
      match second_pass with
      | [] => []
      | _ :: _ =>
        collect_entries (normalize_path dir_path) (count_entries first_pass) second_pass []

/-! ## The applier `apply_changes` (lines 360-466) -/

/-- A call the applier makes on the file system of the target: `_mkdir`,
`CreateFile` with `CREATE_ALWAYS` followed by `WriteFile` of the given bytes
(no write when the file does not open), `RemoveDirectory`, `DeleteFile`. -/
inductive fs_call where
  | mkdir (path : List Nat)
  | write_file (path : List Nat) (bytes : List Nat)
  | remove_directory (path : List Nat)
  | delete_file (path : List Nat)
deriving DecidableEq, Repr

/-- The loop `while (*relative_path && *relative_path != '\\') relative_path++`
(lines 376-377). -/
def skip_segment : List Nat → List Nat
  | [] => []
  | c :: cs => if c ≠ 0 ∧ c ≠ 92 then skip_segment cs else c :: cs

/-- Lines 369-397: the string left in `target_path`. A pointer into a string
is the rest of the string from that position on. -/
def compute_target_path (normalized_target normalized_source : List Nat) : List Nat :=
  match strchr normalized_source 92 with
  | some (_ :: relative_path) =>
    match skip_segment relative_path with
    | c :: relative_path1 =>
      if c ≠ 0 then snprintf_joined MAX_PATH_LENGTH normalized_target relative_path1
      else
        match strrchr normalized_source 92 with
        | some (_ :: filename) => snprintf_joined MAX_PATH_LENGTH normalized_target filename
        | _ => c_string (strncpy normalized_source MAX_PATH_LENGTH)
    | [] =>
      match strrchr normalized_source 92 with
      | some (_ :: filename) => snprintf_joined MAX_PATH_LENGTH normalized_target filename
      | _ => c_string (strncpy normalized_source MAX_PATH_LENGTH)
  | _ => c_string (strncpy normalized_source MAX_PATH_LENGTH)

/-- The loop of lines 407-412 from the position `path_segment` on: `before` is
the buffer up to that position, `rest` the buffer from it on. Each backslash
found before the terminator is overwritten by NUL for the call of `_mkdir` on
the whole buffer and then restored. -/
def mkdir_segments (before : List Nat) : List Nat → List fs_call
  | [] => []
  | c :: cs =>
    if c = 92 then
      fs_call.mkdir (c_string (before ++ 0 :: cs)) :: mkdir_segments (before ++ [92]) cs
    else if c = 0 then []
    else mkdir_segments (before ++ [c]) cs

/-- Lines 401-415: the calls of `_mkdir` made on the way, and the content of
`target_path` afterwards. -/
def ensure_directories (target_path : List Nat) : List fs_call × List Nat :=
  match strrchr target_path 92 with
  | none => ([], target_path)
  | some from_last_slash =>
    let last_slash := target_path.length - from_last_slash.length
    let cut := target_path.set last_slash 0
    (mkdir_segments [] cut ++ [fs_call.mkdir (c_string cut)], cut.set last_slash 92)

/-- The switch of lines 417-460 on a record and its target path. The byte
count of `WriteFile` is `(DWORD)data_size`. -/
def dispatch_operation (r : sync_record) (target_path : List Nat) : List fs_call :=
  if r.operation = SYNC_CREATE ∨ r.operation = SYNC_MODIFY then
    if r.file.is_directory ≠ 0 then [fs_call.mkdir target_path]
    else [fs_call.write_file target_path (r.data.take (r.data_size % 2 ^ 32))]
  else if r.operation = SYNC_DELETE then
    if r.file.is_directory ≠ 0 then [fs_call.remove_directory target_path]
    else [fs_call.delete_file target_path]
  else []

/-- One iteration of the loop of `apply_changes` (lines 365-463): the calls
made on the file system, in order. -/
def apply_record (normalized_target : List Nat) (r : sync_record) : List fs_call :=
  let target_path := compute_target_path normalized_target (normalize_path r.file.path)
  (ensure_directories target_path).1 ++ dispatch_operation r (ensure_directories target_path).2

/-- The function `apply_changes` on the array `changes` and the count
`change_count`: the calls made on the file system, in order. -/
def apply_changes (changes : Nat → sync_record) (change_count : Int) (target_dir : List Nat) :
    List fs_call :=
  (List.range change_count.toNat).flatMap
    (fun i => apply_record (normalize_path target_dir) (changes i))

/-- One iteration of the accept loop of `server_main` (lines 144-188) on a
connection that delivers `stream`: the calls made on the file system of the
target. -/
def serve_and_apply (change_count : Int) (changes : Nat → sync_record) (stream : List Nat)
    (target_dir : List Nat) : List fs_call :=
  match (serve_connection change_count changes stream).applied with
  | none => []
  | some n => apply_changes (serve_connection change_count changes stream).state.changes n target_dir

/-- The proper prefixes of a path that end immediately before a separator, in
order of increasing length. -/
def separator_prefixes (path : List Nat) : List (List Nat) :=
  ((List.range path.length).filter (fun i => decide (path[i]? = some 92))).map
    (fun i => path.take i)

/-- A `SYNC_CREATE` record whose path is a bare file name, without separator
(for concrete inputs). -/
def bare_name_create : sync_record :=
  { operation := SYNC_CREATE
    file := { path := path_buffer "a.txt", last_modified := 1700000000, size := 5,
              is_directory := 0 }
    data := cstr "hello" ++ List.replicate (BUFFER_SIZE - 5) 0
    data_size := 5 }

/-- The directory entry of a file `f.txt` of 5 bytes (for concrete inputs). -/
def example_entry : find_data :=
  { cFileName := cstr "f.txt", dwFileAttributes := 32, dwLowDateTime := 3577643008,
    dwHighDateTime := 30000000, nFileSizeLow := 5, nFileSizeHigh := 0 }

/-- A record that declares 2000 payload bytes, more than its `data` field
holds (for concrete inputs). -/
def oversized_record : sync_record :=
  { operation := SYNC_CREATE
    file := { path := path_buffer "w\\a.txt", last_modified := 1700000000, size := 2000,
              is_directory := 0 }
    data := List.replicate BUFFER_SIZE 0
    data_size := 2000 }

/-- The memory of `changes` after an earlier connection left the record
`example_delete` in slot 1 (for concrete inputs). -/
def stale_memory : Nat → sync_record :=
  Function.update zero_block 1 example_delete

/-! ## The watcher `watch_directory` (lines 560-599) -/

/-- What one call of `scan_directory` meets outside the program: the entries
its two enumerations deliver and whether `malloc` returns a block. -/
structure scan_env where
  first_pass : List find_data
  second_pass : List find_data
  malloc_ok : Bool

/-- What one iteration of the loop meets outside the program: the directory
at the time of its scan, the block `malloc` returns to `compare_directories`,
the files `send_changes_to_server` reads and the state of the network. -/
structure poll_env where
  scan : scan_env
  malloc_result : Option (Nat → sync_record)
  fs : List Nat → Option (List Nat)
  net : network

/-- One call of `send_changes_to_server`: the change list passed and the value
returned (`1` sent, `0` failed). -/
structure transmission where
  changes : List sync_record
  result : Int
deriving DecidableEq

/-- The state of the watcher between two iterations: the baseline
(`old_files`, `old_count`) and the calls of `send_changes_to_server` made so
far. -/
structure watcher_state where
  old_files : List file_info
  transmissions : List transmission

/-- The snapshot a call of `scan_directory` returns in the given environment. -/
def scan_with (dir_path : List Nat) (e : scan_env) : List file_info :=
  scan_directory dir_path e.first_pass e.second_pass e.malloc_ok

/-- One iteration of the loop (lines 569-598), after the `Sleep`. -/
def watch_iteration (dir_path : List Nat) (st : watcher_state) (env : poll_env) :
    watcher_state :=
  { old_files := scan_with dir_path env.scan
    transmissions :=
      if (compare_directories env.malloc_result st.old_files
          (scan_with dir_path env.scan)).length > 0 then
        st.transmissions ++
          [{ changes := compare_directories env.malloc_result st.old_files
                (scan_with dir_path env.scan)
             result := (send_changes_to_server env.fs env.net
                (compare_directories env.malloc_result st.old_files
                  (scan_with dir_path env.scan))).2 }]
      else st.transmissions }

/-- The function `watch_directory` through the first `polls.length` iterations
of its loop: the initial scan (line 567) seeds the baseline. -/
def watch_directory (dir_path : List Nat) (initial : scan_env) (polls : List poll_env) :
    watcher_state :=
  polls.foldl (watch_iteration dir_path)
    { old_files := scan_with dir_path initial, transmissions := [] }

/-- The entries `.` and `..` every enumeration of a directory starts with, and
a directory holding the single file `f.txt` (for concrete inputs). -/
def dot_entries : List find_data :=
  [{ cFileName := cstr ".", dwFileAttributes := 16, dwLowDateTime := 0, dwHighDateTime := 0,
     nFileSizeLow := 0, nFileSizeHigh := 0 },
   { cFileName := cstr "..", dwFileAttributes := 16, dwLowDateTime := 0, dwHighDateTime := 0,
     nFileSizeLow := 0, nFileSizeHigh := 0 }]

/-- A scan that finds the directory with the single file `f.txt`. -/
def one_file_scan : scan_env :=
  { first_pass := dot_entries ++ [example_entry], second_pass := dot_entries ++ [example_entry],
    malloc_ok := true }

/-- A scan that cannot open the directory. -/
def failed_scan : scan_env :=
  { first_pass := [], second_pass := [], malloc_ok := true }

/-- An iteration that meets the given scan, a zeroed block and a working
network. -/
def example_poll (scan : scan_env) : poll_env :=
  { scan := scan, malloc_result := some zero_block, fs := example_fs, net := reliable_net }

/-- A network on which `connect` fails. -/
def unreachable_net : network := { connect_ok := false, send_ok := fun _ => false }

/-- An iteration that meets the given scan, a zeroed block and an unreachable
server. -/
def failing_poll (scan : scan_env) : poll_env :=
  { scan := scan, malloc_result := some zero_block, fs := example_fs, net := unreachable_net }

/-- Line 306: `int max_changes = old_count + new_count`, the number of records
the block is allocated for, in 32-bit two's complement. -/
def max_changes (old_count new_count : Int) : Int :=
  int_of_bytes 4 (int_to_bytes 4 (old_count + new_count))

/-! # Theorems -/

/-! ## Lemmas about `_stricmp` -/

theorem tolower_eq_zero (c : Nat) : tolower c = 0 ↔ c = 0 := by
  unfold tolower
  split <;> omega

theorem stricmp_eq_zero_iff (a b : List Nat) : _stricmp a b = 0 ↔ fold_key a = fold_key b := by
  induction a generalizing b with
  | nil =>
    cases b with
    | nil => simp [_stricmp, fold_key]
    | cons b bs =>
      by_cases hb : b = 0
      · subst hb; simp [_stricmp, fold_key, tolower]
      · have := (tolower_eq_zero b).not.mpr hb
        simp [_stricmp, fold_key, hb]
        omega
  | cons a as ih =>
    cases b with
    | nil =>
      by_cases ha : a = 0
      · subst ha; simp [_stricmp, fold_key, tolower]
      · have := (tolower_eq_zero a).not.mpr ha
        simp [_stricmp, fold_key, ha]
        omega
    | cons b bs =>
      by_cases hab : tolower a = tolower b
      · by_cases ha : a = 0
        · subst ha
          have hb : b = 0 := (tolower_eq_zero b).mp hab.symm
          subst hb
          simp [_stricmp, fold_key]
        · have hb : b ≠ 0 := fun h => ha ((tolower_eq_zero a).mp (by rw [hab, h]; rfl))
          have := ih bs
          simp [_stricmp, fold_key, hab, ha, hb] at this ⊢
          exact this
      · by_cases ha : a = 0
        · subst ha
          have hb : b ≠ 0 := fun h => hab (by rw [h])
          have hb2 := (tolower_eq_zero b).not.mpr hb
          simp [_stricmp, fold_key, hab, hb]
          simp [tolower] at hab ⊢
          omega
        · by_cases hb : b = 0
          · subst hb
            have ha2 := (tolower_eq_zero a).not.mpr ha
            simp [_stricmp, fold_key, hab, ha]
            simp [tolower] at hab ⊢
            omega
          · simp [_stricmp, fold_key, hab, ha, hb]
            omega

theorem stricmp_refl (a : List Nat) : _stricmp a a = 0 :=
  (stricmp_eq_zero_iff a a).mpr rfl

theorem stricmp_symm {a b : List Nat} (h : _stricmp a b = 0) : _stricmp b a = 0 :=
  (stricmp_eq_zero_iff b a).mpr ((stricmp_eq_zero_iff a b).mp h).symm

theorem stricmp_trans {a b c : List Nat} (h1 : _stricmp a b = 0) (h2 : _stricmp b c = 0) :
    _stricmp a c = 0 :=
  (stricmp_eq_zero_iff a c).mpr
    (((stricmp_eq_zero_iff a b).mp h1).trans ((stricmp_eq_zero_iff b c).mp h2))

theorem length_stamp (block : Nat → sync_record) (k : Nat) (xs : List (sync_operation × file_info)) :
    (stamp block k xs).length = xs.length := by
  induction xs generalizing k with
  | nil => rfl
  | cons x xs ih => simp [stamp, ih]

theorem stamp_append (block : Nat → sync_record) (k : Nat)
    (xs ys : List (sync_operation × file_info)) :
    stamp block k (xs ++ ys) = stamp block k xs ++ stamp block (k + xs.length) ys := by
  induction xs generalizing k with
  | nil => simp [stamp]
  | cons x xs ih =>
    have h := ih (k + 1)
    rw [show k + 1 + xs.length = k + (xs.length + 1) by omega] at h
    simp only [List.cons_append, stamp, List.length_cons]
    exact congrArg _ h

theorem map_sig_stamp (block : Nat → sync_record) (k : Nat) (xs : List (sync_operation × file_info)) :
    (stamp block k xs).map sync_record.sig = xs := by
  induction xs generalizing k with
  | nil => rfl
  | cons x xs ih => simp [stamp, ih, sync_record.sig, store_change]

theorem scan_old_files_eq (block : Nat → sync_record) (n : file_info) (old : List file_info)
    (changes : List sync_record) :
    scan_old_files block n old changes =
      match old.find? (fun o => decide (_stricmp n.path o.path = 0)) with
      | none => (false, changes)
      | some o =>
        if n.last_modified > o.last_modified ∨ n.size ≠ o.size then
          (true, changes ++ [store_change block changes.length SYNC_MODIFY n])
        else (true, changes) := by
  induction old with
  | nil => rfl
  | cons o rest ih =>
    by_cases h : _stricmp n.path o.path = 0
    · simp [scan_old_files, List.find?, h]
    · simp [scan_old_files, List.find?, h, ih]

theorem scan_new_files_eq (o : file_info) (new : List file_info) :
    scan_new_files o new = new.any (fun n => decide (_stricmp o.path n.path = 0)) := by
  induction new with
  | nil => rfl
  | cons n rest ih =>
    by_cases h : _stricmp o.path n.path = 0
    · simp [scan_new_files, h]
    · simp [scan_new_files, h, ih]

theorem detect_new_and_modified_eq (block : Nat → sync_record) (old new : List file_info)
    (changes : List sync_record) :
    detect_new_and_modified block old new changes =
      changes ++ stamp block changes.length (new_changes old new) := by
  induction new generalizing changes with
  | nil => simp [detect_new_and_modified, new_changes, stamp]
  | cons n rest ih =>
    rw [detect_new_and_modified, scan_old_files_eq]
    cases hf : old.find? (fun o => decide (_stricmp n.path o.path = 0)) with
    | none =>
      simp only [new_changes, List.filterMap_cons, new_entry_change, hf]
      simp [ih, stamp, new_changes]
    | some o =>
      by_cases hc : n.last_modified > o.last_modified ∨ n.size ≠ o.size
      · simp only [new_changes, List.filterMap_cons, new_entry_change, hf, hc, if_true]
        simp [ih, stamp, new_changes]
      · simp only [new_changes, List.filterMap_cons, new_entry_change, hf, hc, if_false]
        simp [ih, new_changes]

theorem detect_deleted_eq (block : Nat → sync_record) (old new : List file_info)
    (changes : List sync_record) :
    detect_deleted block new old changes =
      changes ++ stamp block changes.length (deleted_changes old new) := by
  induction old generalizing changes with
  | nil => simp [detect_deleted, deleted_changes, stamp]
  | cons o rest ih =>
    rw [detect_deleted, scan_new_files_eq]
    by_cases h : (new.any (fun n => decide (_stricmp o.path n.path = 0))) = true
    · simp only [deleted_changes, List.filter_cons, h]
      simp [ih, deleted_changes]
    · simp only [Bool.not_eq_true] at h
      simp only [deleted_changes, List.filter_cons, h]
      simp [ih, stamp, deleted_changes]

theorem compare_directories_eq (block : Nat → sync_record) (old new : List file_info) :
    compare_directories (some block) old new =
      stamp block 0 (new_changes old new ++ deleted_changes old new) := by
  simp [compare_directories, detect_deleted_eq, detect_new_and_modified_eq, stamp_append,
    length_stamp]

theorem map_sig_compare_directories (block : Nat → sync_record) (old new : List file_info) :
    (compare_directories (some block) old new).map sync_record.sig =
      new_changes old new ++ deleted_changes old new := by
  rw [compare_directories_eq, map_sig_stamp]

/-! ## The diff as a list of (operation, entry) pairs: lemmas -/

/-! ## Lemmas for the partition properties -/

theorem records_for_map_sig (p : List Nat) (l : List sync_record) :
    (records_for p l).map sync_record.sig =
      (l.map sync_record.sig).filter (fun x => decide (_stricmp x.2.path p = 0)) := by
  induction l with
  | nil => rfl
  | cons r rest ih =>
    by_cases h : _stricmp r.file.path p = 0
    · have ih2 : List.map sync_record.sig (List.filter (fun r => decide (_stricmp r.file.path p = 0)) rest)
          = List.filter (fun x => decide (_stricmp x.2.path p = 0)) (List.map sync_record.sig rest) := ih
      simp [records_for, List.filter_cons, h, sync_record.sig, ih2]
    · have ih2 : List.map sync_record.sig (List.filter (fun r => decide (_stricmp r.file.path p = 0)) rest)
          = List.filter (fun x => decide (_stricmp x.2.path p = 0)) (List.map sync_record.sig rest) := ih
      simp [records_for, List.filter_cons, h, sync_record.sig, ih2]

theorem records_for_eq_nil (p : List Nat) (l : List sync_record)
    (h : (l.map sync_record.sig).filter (fun x => decide (_stricmp x.2.path p = 0)) = []) :
    records_for p l = [] := by
  have := records_for_map_sig p l
  rw [h] at this
  exact List.map_eq_nil_iff.mp this

theorem records_for_eq_singleton (p : List Nat) (l : List sync_record) (op : sync_operation)
    (f : file_info)
    (h : (l.map sync_record.sig).filter (fun x => decide (_stricmp x.2.path p = 0)) = [(op, f)]) :
    ∃ r, records_for p l = [r] ∧ r.operation = op ∧ r.file = f := by
  have hm := records_for_map_sig p l
  rw [h] at hm
  cases hr : records_for p l with
  | nil => rw [hr] at hm; simp at hm
  | cons r rest =>
    rw [hr] at hm
    simp only [List.map_cons, List.cons.injEq, List.map_eq_nil_iff] at hm
    obtain ⟨h1, h2⟩ := hm
    subst h2
    refine ⟨r, rfl, ?_, ?_⟩
    · exact congrArg Prod.fst h1
    · exact congrArg Prod.snd h1

theorem filter_match_unique (l : List file_info) (e : file_info) (hl : unique_paths l)
    (he : e ∈ l) : l.filter (fun x => decide (_stricmp x.path e.path = 0)) = [e] := by
  induction l with
  | nil => cases he
  | cons x rest ih =>
    rw [unique_paths, List.pairwise_cons] at hl
    obtain ⟨hx, hrest⟩ := hl
    by_cases hxe : x = e
    · subst hxe
      have hnone : rest.filter (fun y => decide (_stricmp y.path x.path = 0)) = [] := by
        rw [List.filter_eq_nil_iff]
        intro y hy
        have := hx y hy
        simp only [decide_eq_true_eq]
        exact fun h => this (stricmp_symm h)
      simp [List.filter_cons, stricmp_refl, hnone]
    · have he2 : e ∈ rest := by
        cases he with
        | head => exact absurd rfl hxe
        | tail _ h => exact h
      have := hx e he2
      simp [List.filter_cons, this, ih hrest he2]

theorem find_match_unique (l : List file_info) (p : List Nat) (o : file_info)
    (hl : unique_paths l) (ho : o ∈ l) (hm : _stricmp p o.path = 0) :
    l.find? (fun x => decide (_stricmp p x.path = 0)) = some o := by
  induction l with
  | nil => cases ho
  | cons x rest ih =>
    rw [unique_paths, List.pairwise_cons] at hl
    obtain ⟨hx, hrest⟩ := hl
    by_cases hxo : x = o
    · subst hxo
      simp [List.find?, hm]
    · have ho2 : o ∈ rest := by
        cases ho with
        | head => exact absurd rfl hxo
        | tail _ h => exact h
      have hne : _stricmp p x.path ≠ 0 := fun h =>
        hx o ho2 (stricmp_trans (stricmp_symm h) hm)
      simp [List.find?, hne, ih hrest ho2]

theorem find_match_none (l : List file_info) (p : List Nat)
    (h : ∀ o ∈ l, _stricmp p o.path ≠ 0) :
    l.find? (fun x => decide (_stricmp p x.path = 0)) = none := by
  rw [List.find?_eq_none]
  intro x hx
  simpa using h x hx

theorem filter_new_changes (old new : List file_info) (p : List Nat) :
    (new_changes old new).filter (fun x => decide (_stricmp x.2.path p = 0)) =
      (new.filter (fun n => decide (_stricmp n.path p = 0))).filterMap (new_entry_change old) := by
  induction new with
  | nil => rfl
  | cons n rest ih =>
    have hsnd : ∀ y, new_entry_change old n = some y → y.2 = n := by
      intro y hy
      unfold new_entry_change at hy
      split at hy
      · cases hy; rfl
      · split at hy
        · cases hy; rfl
        · cases hy
    unfold new_changes at ih ⊢
    cases hg : new_entry_change old n with
    | none =>
      by_cases hp : _stricmp n.path p = 0
      · simp [List.filterMap_cons, List.filter_cons, hg, hp, ih]
      · simp [List.filterMap_cons, List.filter_cons, hg, hp, ih]
    | some y =>
      have := hsnd y hg
      by_cases hp : _stricmp n.path p = 0
      · simp [List.filterMap_cons, List.filter_cons, hg, hp, ih, this]
      · simp [List.filterMap_cons, List.filter_cons, hg, hp, ih, this]

theorem filter_deleted_changes (old new : List file_info) (p : List Nat) :
    (deleted_changes old new).filter (fun x => decide (_stricmp x.2.path p = 0)) =
      ((old.filter (fun o => decide (_stricmp o.path p = 0))).filter
        (fun o => !(new.any (fun n => decide (_stricmp o.path n.path = 0))))).map
        (fun o => (SYNC_DELETE, o)) := by
  unfold deleted_changes
  rw [List.filter_map, List.filter_filter, List.filter_filter]
  congr 1
  apply List.filter_congr
  intro x _
  simp [Function.comp, Bool.and_comm]

theorem filter_match_absent (l : List file_info) (p : List Nat)
    (h : ∀ x ∈ l, _stricmp x.path p ≠ 0) :
    l.filter (fun x => decide (_stricmp x.path p = 0)) = [] := by
  rw [List.filter_eq_nil_iff]
  intro x hx
  simpa using h x hx

/-! ## Partition properties of the diff -/

/-- C1: an entry `e` of `new_files` (paths unique ignoring case) with no
case-insensitive match in `old_files` yields exactly one record for its path
in `compare_directories old_files new_files`; that record is a `SYNC_CREATE`
carrying `e` unchanged. -/
theorem create_for_new_only_entry (block : Nat → sync_record) (old_files new_files : List file_info)
    (e : file_info) (hnew : unique_paths new_files) (he : e ∈ new_files)
    (hno : ∀ o ∈ old_files, _stricmp e.path o.path ≠ 0) :
    ∃ r, records_for e.path (compare_directories (some block) old_files new_files) = [r] ∧
      r.operation = SYNC_CREATE ∧ r.file = e := by
  apply records_for_eq_singleton
  rw [map_sig_compare_directories, List.filter_append, filter_new_changes,
    filter_deleted_changes, filter_match_unique new_files e hnew he,
    filter_match_absent old_files e.path (fun x hx h => hno x hx (stricmp_symm h))]
  simp [new_entry_change, find_match_none old_files e.path hno]

theorem create_for_new_only_entry_witness :
    ∃ r, records_for (cstr "b.txt")
        (compare_directories (some zero_block) [⟨cstr "a.txt", 100, 10, 0⟩]
          [⟨cstr "a.txt", 100, 10, 0⟩, ⟨cstr "b.txt", 200, 5, 0⟩]) = [r] ∧
      r.operation = SYNC_CREATE ∧ r.file = ⟨cstr "b.txt", 200, 5, 0⟩ :=
  create_for_new_only_entry zero_block [⟨cstr "a.txt", 100, 10, 0⟩]
    [⟨cstr "a.txt", 100, 10, 0⟩, ⟨cstr "b.txt", 200, 5, 0⟩] ⟨cstr "b.txt", 200, 5, 0⟩
    (by decide) (by decide) (by decide)

theorem any_match_of_mem (l : List file_info) (p : List Nat) (x : file_info) (hx : x ∈ l)
    (h : _stricmp p x.path = 0) : l.any (fun n => decide (_stricmp p n.path = 0)) = true := by
  rw [List.any_eq_true]
  exact ⟨x, hx, by simpa using h⟩

theorem any_match_false (l : List file_info) (p : List Nat)
    (h : ∀ x ∈ l, _stricmp p x.path ≠ 0) :
    l.any (fun n => decide (_stricmp p n.path = 0)) = false := by
  rw [List.any_eq_false]
  intro x hx
  simpa using h x hx

/-- C2: an entry `e` of `old_files` (paths unique ignoring case) with no
case-insensitive match in `new_files` yields exactly one record for its path;
that record is a `SYNC_DELETE` carrying `e`. In particular old = {a.txt, b.txt},
new = {a.txt} gives exactly [Delete b.txt]. -/
theorem delete_for_old_only_entry :
    (∀ (block : Nat → sync_record) (old_files new_files : List file_info) (e : file_info),
      unique_paths old_files → e ∈ old_files →
      (∀ n ∈ new_files, _stricmp e.path n.path ≠ 0) →
      ∃ r, records_for e.path (compare_directories (some block) old_files new_files) = [r] ∧
        r.operation = SYNC_DELETE ∧ r.file = e) ∧
    (∀ (block : Nat → sync_record) (a b : file_info),
      a.path = cstr "a.txt" → b.path = cstr "b.txt" →
      compare_directories (some block) [a, b] [a] = [store_change block 0 SYNC_DELETE b]) := by
  constructor
  · intro block old_files new_files e hold he hno
    apply records_for_eq_singleton
    rw [map_sig_compare_directories, List.filter_append, filter_new_changes,
      filter_deleted_changes, filter_match_unique old_files e hold he,
      filter_match_absent new_files e.path (fun x hx h => hno x hx (stricmp_symm h))]
    simp [any_match_false new_files e.path hno]
  · intro block a b ha hb
    have h1 : _stricmp (cstr "a.txt") (cstr "a.txt") = 0 := by decide
    have h2 : ¬ _stricmp (cstr "b.txt") (cstr "a.txt") = 0 := by decide
    simp [compare_directories, detect_deleted, detect_new_and_modified, scan_old_files,
      scan_new_files, ha, hb, h1, h2]

theorem delete_for_old_only_entry_witness :
    (∃ r, records_for (cstr "b.txt")
        (compare_directories (some zero_block)
          [⟨cstr "a.txt", 100, 10, 0⟩, ⟨cstr "b.txt", 200, 5, 0⟩]
          [⟨cstr "a.txt", 100, 10, 0⟩]) = [r] ∧
      r.operation = SYNC_DELETE ∧ r.file = ⟨cstr "b.txt", 200, 5, 0⟩) ∧
    compare_directories (some zero_block)
        [⟨cstr "a.txt", 100, 10, 0⟩, ⟨cstr "b.txt", 200, 5, 0⟩] [⟨cstr "a.txt", 100, 10, 0⟩] =
      [store_change zero_block 0 SYNC_DELETE ⟨cstr "b.txt", 200, 5, 0⟩] :=
  ⟨delete_for_old_only_entry.1 zero_block
      [⟨cstr "a.txt", 100, 10, 0⟩, ⟨cstr "b.txt", 200, 5, 0⟩] [⟨cstr "a.txt", 100, 10, 0⟩]
      ⟨cstr "b.txt", 200, 5, 0⟩ (by decide) (by decide) (by decide),
    delete_for_old_only_entry.2 zero_block ⟨cstr "a.txt", 100, 10, 0⟩ ⟨cstr "b.txt", 200, 5, 0⟩
      rfl rfl⟩

theorem matched_entry_sig (block : Nat → sync_record)
    (old_files new_files : List file_info) (n o : file_info)
    (hold : unique_paths old_files) (hnew : unique_paths new_files)
    (hn : n ∈ new_files) (ho : o ∈ old_files) (hm : _stricmp n.path o.path = 0) :
    (List.map sync_record.sig (compare_directories (some block) old_files new_files)).filter
      (fun x => decide (_stricmp x.2.path n.path = 0)) =
      if n.last_modified > o.last_modified ∨ n.size ≠ o.size then [(SYNC_MODIFY, n)] else [] := by
  have hcongr : old_files.filter (fun x => decide (_stricmp x.path n.path = 0)) =
      old_files.filter (fun x => decide (_stricmp x.path o.path = 0)) :=
    List.filter_congr (fun x _ => by
      simp only [decide_eq_decide]
      exact ⟨fun h => stricmp_trans h hm, fun h => stricmp_trans h (stricmp_symm hm)⟩)
  rw [map_sig_compare_directories, List.filter_append, filter_new_changes,
    filter_deleted_changes, filter_match_unique new_files n hnew hn, hcongr,
    filter_match_unique old_files o hold ho]
  have hany := any_match_of_mem new_files o.path n hn (stricmp_symm hm)
  simp only [List.filterMap_cons, List.filterMap_nil, new_entry_change,
    find_match_unique old_files n.path o hold ho hm, List.filter_cons, hany, List.filter_nil]
  by_cases hc : n.last_modified > o.last_modified ∨ n.size ≠ o.size
  · simp [hc]
  · simp [hc]

/-- C3: for an entry `n` of `new_files` matching an entry `o` of `old_files`
by case-insensitive path (both snapshots with unique paths), the diff holds
exactly one record for that path, a `SYNC_MODIFY` carrying `n`, if and only if
`n.last_modified > o.last_modified` or `n.size ≠ o.size`; otherwise it holds
no record at all for that path. -/
theorem modify_iff_newer_or_resized (block : Nat → sync_record)
    (old_files new_files : List file_info) (n o : file_info)
    (hold : unique_paths old_files) (hnew : unique_paths new_files)
    (hn : n ∈ new_files) (ho : o ∈ old_files) (hm : _stricmp n.path o.path = 0) :
    ((∃ r, records_for n.path (compare_directories (some block) old_files new_files) = [r] ∧
        r.operation = SYNC_MODIFY ∧ r.file = n) ↔
      (n.last_modified > o.last_modified ∨ n.size ≠ o.size)) ∧
    (¬ (n.last_modified > o.last_modified ∨ n.size ≠ o.size) →
      records_for n.path (compare_directories (some block) old_files new_files) = []) := by
  have hsig := matched_entry_sig block old_files new_files n o hold hnew hn ho hm
  by_cases hc : n.last_modified > o.last_modified ∨ n.size ≠ o.size
  · rw [if_pos hc] at hsig
    exact ⟨⟨fun _ => hc, fun _ => records_for_eq_singleton _ _ _ _ hsig⟩, fun h => absurd hc h⟩
  · rw [if_neg hc] at hsig
    have hnil := records_for_eq_nil _ _ hsig
    refine ⟨⟨fun ⟨r, hr, _⟩ => ?_, fun h => absurd h hc⟩, fun _ => hnil⟩
    rw [hnil] at hr
    cases hr

theorem modify_iff_newer_or_resized_witness :
    ∃ r, records_for (cstr "A.TXT")
        (compare_directories (some zero_block) [⟨cstr "a.txt", 100, 10, 0⟩]
          [⟨cstr "A.TXT", 200, 10, 0⟩]) = [r] ∧
      r.operation = SYNC_MODIFY ∧ r.file = ⟨cstr "A.TXT", 200, 10, 0⟩ :=
  (modify_iff_newer_or_resized zero_block [⟨cstr "a.txt", 100, 10, 0⟩]
    [⟨cstr "A.TXT", 200, 10, 0⟩] ⟨cstr "A.TXT", 200, 10, 0⟩ ⟨cstr "a.txt", 100, 10, 0⟩
    (by decide) (by decide) (by decide) (by decide) (by decide)).1.mpr (Or.inl (by decide))

/-- C4: the diff of a snapshot (paths unique ignoring case) against itself is
empty, so `change_count = 0`. -/
theorem compare_directories_self (malloc_result : Option (Nat → sync_record))
    (S : List file_info) (hS : unique_paths S) :
    compare_directories malloc_result S S = [] ∧
      (compare_directories malloc_result S S).length = 0 := by
  have h : compare_directories malloc_result S S = [] := by
    cases malloc_result with
    | none => rfl
    | some block =>
      rw [compare_directories_eq]
      have h1 : new_changes S S = [] := by
        unfold new_changes
        rw [List.filterMap_eq_nil_iff]
        intro n hn
        simp [new_entry_change, find_match_unique S n.path n hS hn (stricmp_refl _)]
      have h2 : deleted_changes S S = [] := by
        unfold deleted_changes
        rw [List.map_eq_nil_iff, List.filter_eq_nil_iff]
        intro o ho
        simp only [Bool.not_eq_true', Bool.not_eq_false]
        exact any_match_of_mem S o.path o ho (stricmp_refl _)
      rw [h1, h2]
      rfl
  exact ⟨h, by rw [h]; rfl⟩

theorem compare_directories_self_witness :
    compare_directories (some zero_block)
        [⟨cstr "a.txt", 100, 10, 0⟩, ⟨cstr "docs", 50, 0, 1⟩]
        [⟨cstr "a.txt", 100, 10, 0⟩, ⟨cstr "docs", 50, 0, 1⟩] = [] ∧
      (compare_directories (some zero_block)
        [⟨cstr "a.txt", 100, 10, 0⟩, ⟨cstr "docs", 50, 0, 1⟩]
        [⟨cstr "a.txt", 100, 10, 0⟩, ⟨cstr "docs", 50, 0, 1⟩]).length = 0 :=
  compare_directories_self (some zero_block)
    [⟨cstr "a.txt", 100, 10, 0⟩, ⟨cstr "docs", 50, 0, 1⟩] (by decide)

/-! ## Case-insensitive matching -/

theorem tolower_eq_of_same_letter (a b : Nat) (h : same_letter a b = true) :
    tolower a = tolower b := by
  simp only [same_letter, Bool.or_eq_true, Bool.and_eq_true, beq_iff_eq, decide_eq_true_eq] at h
  unfold tolower
  split <;> split <;> omega

theorem stricmp_eq_zero_of_differs_only_in_case (p q : List Nat)
    (h : differs_only_in_case p q = true) : _stricmp p q = 0 := by
  induction p generalizing q with
  | nil =>
    cases q with
    | nil => rfl
    | cons b bs => simp [differs_only_in_case] at h
  | cons a as ih =>
    cases q with
    | nil => simp [differs_only_in_case] at h
    | cons b bs =>
      simp only [differs_only_in_case, Bool.and_eq_true] at h
      have h1 := tolower_eq_of_same_letter a b h.1
      rw [_stricmp, if_pos h1]
      by_cases ha : a = 0
      · rw [if_pos ha]
      · rw [if_neg ha]
        exact ih bs h.2

theorem mem_new_changes (old new : List file_info) (x : sync_operation × file_info) :
    x ∈ new_changes old new ↔ x.2 ∈ new ∧ new_entry_change old x.2 = some x := by
  have hsnd : ∀ n y, new_entry_change old n = some y → y.2 = n := by
    intro n y hy
    unfold new_entry_change at hy
    split at hy
    · cases hy; rfl
    · split at hy
      · cases hy; rfl
      · cases hy
  unfold new_changes
  rw [List.mem_filterMap]
  constructor
  · rintro ⟨n, hn, hx⟩
    have := hsnd n x hx
    subst this
    exact ⟨hn, hx⟩
  · rintro ⟨hn, hx⟩
    exact ⟨x.2, hn, hx⟩

theorem mem_deleted_changes (old new : List file_info) (x : sync_operation × file_info) :
    x ∈ deleted_changes old new ↔
      x.1 = SYNC_DELETE ∧ x.2 ∈ old ∧ ∀ n ∈ new, _stricmp x.2.path n.path ≠ 0 := by
  unfold deleted_changes
  rw [List.mem_map]
  constructor
  · rintro ⟨o, ho, hx⟩
    subst hx
    rw [List.mem_filter] at ho
    refine ⟨rfl, ho.1, ?_⟩
    have h2 := ho.2
    simp only [Bool.not_eq_true', List.any_eq_false, decide_eq_true_eq] at h2
    exact h2
  · rintro ⟨h1, h2, h3⟩
    refine ⟨x.2, ?_, ?_⟩
    · rw [List.mem_filter]
      refine ⟨h2, ?_⟩
      simp only [Bool.not_eq_true', List.any_eq_false, decide_eq_true_eq]
      exact h3
    · rw [← h1]

theorem sig_mem_of_mem_compare (block : Nat → sync_record) (old new : List file_info)
    (r : sync_record) (hr : r ∈ compare_directories (some block) old new) :
    (r.operation, r.file) ∈ new_changes old new ∨ (r.operation, r.file) ∈ deleted_changes old new := by
  have := List.mem_map_of_mem sync_record.sig hr
  rw [map_sig_compare_directories, List.mem_append] at this
  exact this

theorem new_entry_change_create (old : List file_info) (n : file_info) (op : sync_operation)
    (h : new_entry_change old n = some (op, n)) :
    (op = SYNC_CREATE ∧ ∀ o ∈ old, _stricmp n.path o.path ≠ 0) ∨
    (op = SYNC_MODIFY ∧ ∃ o ∈ old, _stricmp n.path o.path = 0) := by
  unfold new_entry_change at h
  split at h
  · rename_i hf
    left
    rw [List.find?_eq_none] at hf
    refine ⟨by cases h; rfl, fun o ho => ?_⟩
    simpa using hf o ho
  · rename_i o hf
    right
    split at h
    · refine ⟨by cases h; rfl, o, List.mem_of_find?_eq_some hf, ?_⟩
      simpa using List.find?_some hf
    · cases h

/-- C5: when an entry `n` of `new_files` and an entry `o` of `old_files` have
paths that differ only in the case of ASCII letters, the diff holds neither a
`SYNC_CREATE` nor a `SYNC_DELETE` record for that path (under either
spelling); and when moreover the two snapshots have unique paths and `n` and
`o` agree on size and modification time, it holds no record at all for
either spelling. -/
theorem case_insensitive_match_emits_nothing (block : Nat → sync_record)
    (old_files new_files : List file_info) (n o : file_info)
    (hn : n ∈ new_files) (ho : o ∈ old_files)
    (hcase : differs_only_in_case n.path o.path = true) :
    (∀ r ∈ compare_directories (some block) old_files new_files,
      _stricmp r.file.path n.path = 0 ∨ _stricmp r.file.path o.path = 0 →
      r.operation ≠ SYNC_CREATE ∧ r.operation ≠ SYNC_DELETE) ∧
    (unique_paths old_files → unique_paths new_files →
      n.size = o.size → n.last_modified = o.last_modified →
      records_for n.path (compare_directories (some block) old_files new_files) = [] ∧
      records_for o.path (compare_directories (some block) old_files new_files) = []) := by
  have hm : _stricmp n.path o.path = 0 := stricmp_eq_zero_of_differs_only_in_case _ _ hcase
  constructor
  · intro r hr hpath
    have hrn : _stricmp r.file.path n.path = 0 := by
      rcases hpath with h | h
      · exact h
      · exact stricmp_trans h (stricmp_symm hm)
    rcases sig_mem_of_mem_compare block old_files new_files r hr with h | h
    · rw [mem_new_changes] at h
      rcases new_entry_change_create old_files r.file r.operation h.2 with ⟨_, hnone⟩ | ⟨hop, _⟩
      · exact absurd (stricmp_trans hrn hm) (hnone o ho)
      · rw [hop]
        exact ⟨by decide, by decide⟩
    · rw [mem_deleted_changes] at h
      exact absurd hrn (h.2.2 n hn)
  · intro hold hnew hsize htime
    have hsig := matched_entry_sig block old_files new_files n o hold hnew hn ho hm
    have hc : ¬ (n.last_modified > o.last_modified ∨ n.size ≠ o.size) := by
      rw [hsize, htime]
      simp
    rw [if_neg hc] at hsig
    have h1 := records_for_eq_nil _ _ hsig
    refine ⟨h1, ?_⟩
    have : records_for o.path (compare_directories (some block) old_files new_files) =
        records_for n.path (compare_directories (some block) old_files new_files) := by
      unfold records_for
      apply List.filter_congr
      intro x _
      simp only [decide_eq_decide]
      exact ⟨fun h => stricmp_trans h (stricmp_symm hm), fun h => stricmp_trans h hm⟩
    rw [this, h1]

theorem case_insensitive_match_emits_nothing_witness :
    records_for (cstr "FOO.TXT") (compare_directories (some zero_block)
        [⟨cstr "foo.txt", 100, 10, 0⟩] [⟨cstr "FOO.TXT", 100, 10, 0⟩]) = [] ∧
      records_for (cstr "foo.txt") (compare_directories (some zero_block)
        [⟨cstr "foo.txt", 100, 10, 0⟩] [⟨cstr "FOO.TXT", 100, 10, 0⟩]) = [] :=
  (case_insensitive_match_emits_nothing zero_block [⟨cstr "foo.txt", 100, 10, 0⟩]
    [⟨cstr "FOO.TXT", 100, 10, 0⟩] ⟨cstr "FOO.TXT", 100, 10, 0⟩ ⟨cstr "foo.txt", 100, 10, 0⟩
    (by decide) (by decide) (by decide)).2 (by decide) (by decide) rfl rfl

/-! ## Output order -/

theorem sig_mem_of_mem_stamp (block : Nat → sync_record) (k : Nat)
    (xs : List (sync_operation × file_info)) (r : sync_record) (hr : r ∈ stamp block k xs) :
    (r.operation, r.file) ∈ xs := by
  have := List.mem_map_of_mem sync_record.sig hr
  rw [map_sig_stamp] at this
  exact this

theorem map_file_stamp (block : Nat → sync_record) (k : Nat)
    (xs : List (sync_operation × file_info)) :
    (stamp block k xs).map (fun r => r.file) = xs.map Prod.snd := by
  induction xs generalizing k with
  | nil => rfl
  | cons x xs ih => simp [stamp, ih, store_change]

theorem new_changes_sublist (old new : List file_info) :
    ((new_changes old new).map Prod.snd).Sublist new := by
  induction new with
  | nil => exact List.Sublist.slnil
  | cons n rest ih =>
    unfold new_changes at ih ⊢
    cases hg : new_entry_change old n with
    | none =>
      simp only [List.filterMap_cons, hg]
      exact List.Sublist.cons _ ih
    | some y =>
      have hy : y.2 = n := by
        unfold new_entry_change at hg
        split at hg
        · cases hg; rfl
        · split at hg
          · cases hg; rfl
          · cases hg
      simp only [List.filterMap_cons, hg, List.map_cons, hy]
      exact List.Sublist.cons₂ _ ih

theorem deleted_changes_sublist (old new : List file_info) :
    ((deleted_changes old new).map Prod.snd).Sublist old := by
  unfold deleted_changes
  rw [List.map_map]
  have : (Prod.snd ∘ fun o : file_info => (SYNC_DELETE, o)) = id := rfl
  rw [this, List.map_id]
  exact List.filter_sublist _

/-- C6: the list returned by `compare_directories` is a run of
`SYNC_CREATE`/`SYNC_MODIFY` records, whose entries appear in the order of
`new_files`, followed by a run of `SYNC_DELETE` records, whose entries appear
in the order of `old_files`. In particular old = {a.txt(size=10,t=100)},
new = {a.txt(size=12,t=200), b.txt(size=5,t=200)} gives exactly
[Modify a.txt, Create b.txt]. -/
theorem create_modify_before_delete :
    (∀ (block : Nat → sync_record) (old_files new_files : List file_info),
      ∃ created_or_modified deleted,
        compare_directories (some block) old_files new_files = created_or_modified ++ deleted ∧
        (∀ r ∈ created_or_modified, r.operation = SYNC_CREATE ∨ r.operation = SYNC_MODIFY) ∧
        (∀ r ∈ deleted, r.operation = SYNC_DELETE) ∧
        (created_or_modified.map (fun r => r.file)).Sublist new_files ∧
        (deleted.map (fun r => r.file)).Sublist old_files) ∧
    (∀ (block : Nat → sync_record) (d1 d2 d3 : Int),
      compare_directories (some block) [⟨cstr "a.txt", 100, 10, d1⟩]
          [⟨cstr "a.txt", 200, 12, d2⟩, ⟨cstr "b.txt", 200, 5, d3⟩] =
        [store_change block 0 SYNC_MODIFY ⟨cstr "a.txt", 200, 12, d2⟩,
         store_change block 1 SYNC_CREATE ⟨cstr "b.txt", 200, 5, d3⟩]) := by
  constructor
  · intro block old_files new_files
    refine ⟨stamp block 0 (new_changes old_files new_files),
      stamp block (0 + (new_changes old_files new_files).length)
        (deleted_changes old_files new_files), ?_, ?_, ?_, ?_, ?_⟩
    · rw [compare_directories_eq, stamp_append]
    · intro r hr
      have h := sig_mem_of_mem_stamp _ _ _ _ hr
      rw [mem_new_changes] at h
      rcases new_entry_change_create old_files r.file r.operation h.2 with ⟨h1, _⟩ | ⟨h1, _⟩
      · exact Or.inl h1
      · exact Or.inr h1
    · intro r hr
      have h := sig_mem_of_mem_stamp _ _ _ _ hr
      rw [mem_deleted_changes] at h
      exact h.1
    · rw [map_file_stamp]
      exact new_changes_sublist _ _
    · rw [map_file_stamp]
      exact deleted_changes_sublist _ _
  · intro block d1 d2 d3
    have h1 : _stricmp (cstr "a.txt") (cstr "a.txt") = 0 := by decide
    have h2 : ¬ _stricmp (cstr "b.txt") (cstr "a.txt") = 0 := by decide
    simp [compare_directories, detect_deleted, detect_new_and_modified, scan_old_files,
      scan_new_files, h1, h2]

/-! ## Convergence of the replay -/

theorem new_entry_change_snd (old : List file_info) (n : file_info)
    (y : sync_operation × file_info) (h : new_entry_change old n = some y) : y.2 = n := by
  unfold new_entry_change at h
  split at h
  · cases h; rfl
  · split at h
    · cases h; rfl
    · cases h

theorem new_entry_change_none (old : List file_info) (n : file_info)
    (h : new_entry_change old n = none) : ∃ o ∈ old, _stricmp n.path o.path = 0 := by
  unfold new_entry_change at h
  split at h
  · cases h
  · rename_i o hf
    exact ⟨o, List.mem_of_find?_eq_some hf, by simpa using List.find?_some hf⟩

theorem path_present_iff (paths : List (List Nat)) (p : List Nat) :
    path_present paths p = true ↔ ∃ q ∈ paths, _stricmp q p = 0 := by
  simp [path_present, List.any_eq_true]

theorem present_after_created (block : Nat → sync_record) (k : Nat)
    (xs : List (sync_operation × file_info)) (target : List (List Nat)) (p : List Nat)
    (hxs : ∀ x ∈ xs, x.1 = SYNC_CREATE ∨ x.1 = SYNC_MODIFY) :
    path_present (apply_changes_paths target (stamp block k xs)) p = true ↔
      (path_present target p = true ∨ ∃ x ∈ xs, _stricmp x.2.path p = 0) := by
  induction xs generalizing k target with
  | nil => simp [stamp, apply_changes_paths]
  | cons x xs ih =>
    have hx := hxs x (List.mem_cons_self _ _)
    have hstep : apply_dispatch target (store_change block k x.1 x.2) = x.2.path :: target := by
      simp [apply_dispatch, store_change, hx]
    have := ih (k + 1) (x.2.path :: target) (fun y hy => hxs y (List.mem_cons_of_mem _ hy))
    simp only [apply_changes_paths] at this ⊢
    show path_present (List.foldl apply_dispatch
      (apply_dispatch target (store_change block k x.1 x.2)) (stamp block (k + 1) xs)) p = true ↔ _
    rw [hstep, this, path_present_iff, path_present_iff]
    constructor
    · rintro (⟨q, hq, hqp⟩ | ⟨y, hy, hyp⟩)
      · rcases List.mem_cons.mp hq with rfl | hq
        · exact Or.inr ⟨x, List.mem_cons_self _ _, hqp⟩
        · exact Or.inl ⟨q, hq, hqp⟩
      · exact Or.inr ⟨y, List.mem_cons_of_mem _ hy, hyp⟩
    · rintro (⟨q, hq, hqp⟩ | ⟨y, hy, hyp⟩)
      · exact Or.inl ⟨q, List.mem_cons_of_mem _ hq, hqp⟩
      · rcases List.mem_cons.mp hy with rfl | hy
        · exact Or.inl ⟨_, List.mem_cons_self _ _, hyp⟩
        · exact Or.inr ⟨y, hy, hyp⟩

theorem present_after_deleted (block : Nat → sync_record) (k : Nat)
    (xs : List (sync_operation × file_info)) (target : List (List Nat)) (p : List Nat)
    (hxs : ∀ x ∈ xs, x.1 = SYNC_DELETE) :
    path_present (apply_changes_paths target (stamp block k xs)) p = true ↔
      (path_present target p = true ∧ ∀ x ∈ xs, _stricmp x.2.path p ≠ 0) := by
  induction xs generalizing k target with
  | nil => simp [stamp, apply_changes_paths]
  | cons x xs ih =>
    have hx := hxs x (List.mem_cons_self _ _)
    have hstep : apply_dispatch target (store_change block k x.1 x.2) =
        target.filter (fun q => !decide (_stricmp q x.2.path = 0)) := by
      simp [apply_dispatch, store_change, hx, SYNC_DELETE, SYNC_CREATE, SYNC_MODIFY]
    have := ih (k + 1) (target.filter (fun q => !decide (_stricmp q x.2.path = 0)))
      (fun y hy => hxs y (List.mem_cons_of_mem _ hy))
    simp only [apply_changes_paths] at this ⊢
    show path_present (List.foldl apply_dispatch
      (apply_dispatch target (store_change block k x.1 x.2)) (stamp block (k + 1) xs)) p = true ↔ _
    rw [hstep, this, path_present_iff, path_present_iff]
    simp only [List.mem_cons, forall_eq_or_imp, List.mem_filter,
      Bool.not_eq_true', decide_eq_false_iff_not]
    constructor
    · rintro ⟨⟨q, ⟨hq, hqx⟩, hqp⟩, hall⟩
      exact ⟨⟨q, hq, hqp⟩, fun h => hqx (stricmp_trans hqp (stricmp_symm h)), hall⟩
    · rintro ⟨⟨q, hq, hqp⟩, hxp, hall⟩
      exact ⟨⟨q, ⟨hq, fun h => hxp (stricmp_trans (stricmp_symm h) hqp)⟩, hqp⟩, hall⟩

/-- C7: starting from a target whose set of paths equals that of `old_files`
(ignoring case), replaying `compare_directories old_files new_files` in list
order through the dispatch of `apply_changes` yields a target whose set of
paths equals that of `new_files` (ignoring case). -/
theorem replay_converges (block : Nat → sync_record) (old_files new_files : List file_info)
    (target : List (List Nat))
    (hmirror : ∀ p, path_present target p = true ↔ ∃ o ∈ old_files, _stricmp o.path p = 0) :
    ∀ p, path_present
        (apply_changes_paths target (compare_directories (some block) old_files new_files)) p = true ↔
      ∃ n ∈ new_files, _stricmp n.path p = 0 := by
  intro p
  rw [compare_directories_eq, stamp_append, apply_changes_paths, List.foldl_append]
  have hdel := present_after_deleted block (0 + (new_changes old_files new_files).length)
    (deleted_changes old_files new_files)
    (apply_changes_paths target (stamp block 0 (new_changes old_files new_files))) p
    (fun x hx => ((mem_deleted_changes _ _ _).mp hx).1)
  have hcre := present_after_created block 0 (new_changes old_files new_files) target p
    (fun x hx => by
      have h := (mem_new_changes _ _ _).mp hx
      rcases new_entry_change_create old_files x.2 x.1 h.2 with ⟨h1, _⟩ | ⟨h1, _⟩
      · exact Or.inl h1
      · exact Or.inr h1)
  simp only [apply_changes_paths] at hdel hcre
  rw [hdel, hcre, hmirror p]
  constructor
  · rintro ⟨hpres, hnodel⟩
    rcases hpres with ⟨o, ho, hop⟩ | ⟨x, hx, hxp⟩
    · by_cases hex : ∃ n ∈ new_files, _stricmp o.path n.path = 0
      · obtain ⟨n, hn, hon⟩ := hex
        exact ⟨n, hn, stricmp_trans (stricmp_symm hon) hop⟩
      · exfalso
        have hmem : ((SYNC_DELETE, o) : sync_operation × file_info) ∈
            deleted_changes old_files new_files := by
          rw [mem_deleted_changes]
          exact ⟨rfl, ho, fun n hn h => hex ⟨n, hn, h⟩⟩
        exact hnodel _ hmem hop
    · exact ⟨x.2, ((mem_new_changes _ _ _).mp hx).1, hxp⟩
  · rintro ⟨n, hn, hnp⟩
    constructor
    · cases hg : new_entry_change old_files n with
      | none =>
        obtain ⟨o, ho, hno⟩ := new_entry_change_none old_files n hg
        exact Or.inl ⟨o, ho, stricmp_trans (stricmp_symm hno) hnp⟩
      | some y =>
        have hy := new_entry_change_snd old_files n y hg
        refine Or.inr ⟨y, ?_, ?_⟩
        · rw [mem_new_changes, hy]
          exact ⟨hn, hg⟩
        · rw [hy]
          exact hnp
    · intro x hx hxp
      exact ((mem_deleted_changes _ _ _).mp hx).2.2 n hn (stricmp_trans hxp (stricmp_symm hnp))

theorem replay_converges_witness :
    path_present
        (apply_changes_paths [cstr "a.txt", cstr "b.txt"]
          (compare_directories (some zero_block)
            [⟨cstr "a.txt", 100, 10, 0⟩, ⟨cstr "b.txt", 100, 3, 0⟩]
            [⟨cstr "A.TXT", 200, 12, 0⟩, ⟨cstr "c.txt", 200, 5, 0⟩])) (cstr "C.TXT") = true ↔
      ∃ n ∈ ([⟨cstr "A.TXT", 200, 12, 0⟩, ⟨cstr "c.txt", 200, 5, 0⟩] : List file_info),
        _stricmp n.path (cstr "C.TXT") = 0 :=
  replay_converges zero_block
    [⟨cstr "a.txt", 100, 10, 0⟩, ⟨cstr "b.txt", 100, 3, 0⟩]
    [⟨cstr "A.TXT", 200, 12, 0⟩, ⟨cstr "c.txt", 200, 5, 0⟩]
    [cstr "a.txt", cstr "b.txt"]
    (fun p => by simp [path_present]) (cstr "C.TXT")

/-! ## Lemmas about the wire format -/

theorem length_to_le_bytes (w n : Nat) : (to_le_bytes w n).length = w := by
  induction w generalizing n with
  | zero => rfl
  | succ w ih => simp [to_le_bytes, ih]

theorem length_int_to_bytes (w : Nat) (i : Int) : (int_to_bytes w i).length = w :=
  length_to_le_bytes _ _

theorem of_le_to_le_4 (n : Nat) (h : n < 4294967296) : of_le_bytes (to_le_bytes 4 n) = n := by
  simp only [to_le_bytes, of_le_bytes]
  omega

theorem of_le_to_le_8 (n : Nat) (h : n < 18446744073709551616) :
    of_le_bytes (to_le_bytes 8 n) = n := by
  simp only [to_le_bytes, of_le_bytes]
  omega

theorem int_of_bytes_to_bytes_4 (i : Int) (h1 : -(2 ^ 31 : Int) ≤ i) (h2 : i < 2 ^ 31) :
    int_of_bytes 4 (int_to_bytes 4 i) = i := by
  have hn : (i % 4294967296).toNat < 4294967296 := by omega
  simp only [int_of_bytes, int_to_bytes]
  norm_num
  rw [of_le_to_le_4 _ hn]
  split <;> omega

theorem int_of_bytes_to_bytes_8 (i : Int) (h1 : -(2 ^ 63 : Int) ≤ i) (h2 : i < 2 ^ 63) :
    int_of_bytes 8 (int_to_bytes 8 i) = i := by
  have hn : (i % 18446744073709551616).toNat < 18446744073709551616 := by omega
  simp only [int_of_bytes, int_to_bytes]
  norm_num
  rw [of_le_to_le_8 _ hn]
  split <;> omega

theorem size_t_to_int_small (n : Nat) (h : n ≤ BUFFER_SIZE) : (size_t_to_int n).toNat = n := by
  have h1 : n ≤ 1024 := h
  rw [size_t_to_int, int_of_bytes, of_le_to_le_4 n (by omega)]
  norm_num
  split <;> omega

theorem field_at (pre x post : List Nat) (off len : Nat) (h1 : pre.length = off)
    (h2 : x.length = len) : ((pre ++ x ++ post).drop off).take len = x := by
  subst h1 h2
  rw [List.append_assoc, List.drop_left, List.take_left]

theorem length_encode_record (r : sync_record) (h : c_typed r) :
    (encode_record r).length = sizeof_sync_record := by
  obtain ⟨_, _, hp, _, _, _, _, _, _, hd, _⟩ := h
  simp only [encode_record, List.length_append, length_int_to_bytes, length_to_le_bytes, hp, hd,
    MAX_PATH_LENGTH, BUFFER_SIZE, sizeof_sync_record, List.length_cons, List.length_nil]

theorem decode_encode_record (r : sync_record) (h : c_typed r) (behind : List Nat) :
    decode_record (encode_record r ++ behind) = r := by
  obtain ⟨ho1, ho2, hp, ht1, ht2, hs1, hs2, hd1, hd2, hd, hz⟩ := h
  have e1 : (encode_record r ++ behind).take 4 = int_to_bytes 4 r.operation := by
    have := field_at [] (int_to_bytes 4 r.operation)
      ([0, 0, 0, 0] ++ r.file.path ++ int_to_bytes 8 r.file.last_modified ++
        int_to_bytes 4 r.file.size ++ int_to_bytes 4 r.file.is_directory ++ r.data ++
        to_le_bytes 8 r.data_size ++ behind) 0 4 rfl (length_int_to_bytes _ _)
    simpa [encode_record, List.append_assoc] using this
  have e2 : ((encode_record r ++ behind).drop 8).take MAX_PATH_LENGTH = r.file.path := by
    have := field_at (int_to_bytes 4 r.operation ++ [0, 0, 0, 0]) r.file.path
      (int_to_bytes 8 r.file.last_modified ++
        int_to_bytes 4 r.file.size ++ int_to_bytes 4 r.file.is_directory ++ r.data ++
        to_le_bytes 8 r.data_size ++ behind) 8 MAX_PATH_LENGTH
      (by simp [length_int_to_bytes]) hp
    simpa [encode_record, List.append_assoc] using this
  have e3 : ((encode_record r ++ behind).drop 264).take 8 = int_to_bytes 8 r.file.last_modified := by
    have := field_at (int_to_bytes 4 r.operation ++ [0, 0, 0, 0] ++ r.file.path)
      (int_to_bytes 8 r.file.last_modified)
      (int_to_bytes 4 r.file.size ++ int_to_bytes 4 r.file.is_directory ++ r.data ++
        to_le_bytes 8 r.data_size ++ behind) 264 8
      (by simp [length_int_to_bytes, hp, MAX_PATH_LENGTH]) (length_int_to_bytes _ _)
    simpa [encode_record, List.append_assoc] using this
  have e4 : ((encode_record r ++ behind).drop 272).take 4 = int_to_bytes 4 r.file.size := by
    have := field_at (int_to_bytes 4 r.operation ++ [0, 0, 0, 0] ++ r.file.path ++
        int_to_bytes 8 r.file.last_modified)
      (int_to_bytes 4 r.file.size)
      (int_to_bytes 4 r.file.is_directory ++ r.data ++ to_le_bytes 8 r.data_size ++ behind) 272 4
      (by simp [length_int_to_bytes, hp, MAX_PATH_LENGTH]) (length_int_to_bytes _ _)
    simpa [encode_record, List.append_assoc] using this
  have e5 : ((encode_record r ++ behind).drop 276).take 4 = int_to_bytes 4 r.file.is_directory := by
    have := field_at (int_to_bytes 4 r.operation ++ [0, 0, 0, 0] ++ r.file.path ++
        int_to_bytes 8 r.file.last_modified ++ int_to_bytes 4 r.file.size)
      (int_to_bytes 4 r.file.is_directory)
      (r.data ++ to_le_bytes 8 r.data_size ++ behind) 276 4
      (by simp [length_int_to_bytes, hp, MAX_PATH_LENGTH]) (length_int_to_bytes _ _)
    simpa [encode_record, List.append_assoc] using this
  have e6 : ((encode_record r ++ behind).drop 280).take BUFFER_SIZE = r.data := by
    have := field_at (int_to_bytes 4 r.operation ++ [0, 0, 0, 0] ++ r.file.path ++
        int_to_bytes 8 r.file.last_modified ++ int_to_bytes 4 r.file.size ++
        int_to_bytes 4 r.file.is_directory)
      r.data (to_le_bytes 8 r.data_size ++ behind) 280 BUFFER_SIZE
      (by simp [length_int_to_bytes, hp, MAX_PATH_LENGTH]) hd
    simpa [encode_record, List.append_assoc] using this
  have e7 : ((encode_record r ++ behind).drop 1304).take 8 = to_le_bytes 8 r.data_size := by
    have := field_at (int_to_bytes 4 r.operation ++ [0, 0, 0, 0] ++ r.file.path ++
        int_to_bytes 8 r.file.last_modified ++ int_to_bytes 4 r.file.size ++
        int_to_bytes 4 r.file.is_directory ++ r.data)
      (to_le_bytes 8 r.data_size) behind 1304 8
      (by simp [length_int_to_bytes, hp, hd, MAX_PATH_LENGTH, BUFFER_SIZE])
      (length_to_le_bytes _ _)
    simpa [encode_record, List.append_assoc] using this
  unfold decode_record
  rw [e1, e2, e3, e4, e5, e6, e7, int_of_bytes_to_bytes_4 _ ho1 ho2,
    int_of_bytes_to_bytes_8 _ ht1 ht2, int_of_bytes_to_bytes_4 _ hs1 hs2,
    int_of_bytes_to_bytes_4 _ hd1 hd2, of_le_to_le_8 _ (by simpa using hz)]

/-! ## Lemmas about the sender -/

theorem load_file_data_operation (fs : List Nat → Option (List Nat)) (r : sync_record) :
    (load_file_data fs r).operation = r.operation ∧ (load_file_data fs r).file = r.file := by
  unfold load_file_data
  split
  · split <;> exact ⟨rfl, rfl⟩
  · exact ⟨rfl, rfl⟩

theorem load_file_data_payload (fs : List Nat → Option (List Nat)) (r : sync_record)
    (h : (load_file_data fs r).data_size > 0) :
    (r.operation = SYNC_CREATE ∨ r.operation = SYNC_MODIFY) ∧ r.file.is_directory = 0 := by
  unfold load_file_data at h
  split at h
  · assumption
  · simp at h

theorem load_file_data_size_le (fs : List Nat → Option (List Nat)) (r : sync_record) :
    (load_file_data fs r).data_size ≤ BUFFER_SIZE := by
  unfold load_file_data
  split
  · split
    · simp [List.length_take]
    · simp
  · simp

theorem c_typed_load_file_data (fs : List Nat → Option (List Nat)) (r : sync_record)
    (h : c_typed r) : c_typed (load_file_data fs r) := by
  obtain ⟨ho1, ho2, hp, ht1, ht2, hs1, hs2, hd1, hd2, hd, hz⟩ := h
  unfold load_file_data
  split
  · split
    · refine ⟨ho1, ho2, hp, ht1, ht2, hs1, hs2, hd1, hd2, ?_, ?_⟩
      · simp only [List.length_append, List.length_take, List.length_drop, hd, BUFFER_SIZE]
        omega
      · have : (List.take BUFFER_SIZE ‹List Nat›).length ≤ 1024 := by
          simp [List.length_take, BUFFER_SIZE]
        show (List.take BUFFER_SIZE _).length < 2 ^ 64
        omega
    · exact ⟨ho1, ho2, hp, ht1, ht2, hs1, hs2, hd1, hd2, hd, by norm_num⟩
  · exact ⟨ho1, ho2, hp, ht1, ht2, hs1, hs2, hd1, hd2, hd, by norm_num⟩

theorem send_loop_all_ok (fs : List Nat → Option (List Nat)) (net : network)
    (hsend : ∀ k, net.send_ok k = true) (changes : List sync_record) (k : Nat) :
    send_loop fs net changes k = ((changes.map (load_file_data fs)).flatMap frame, 1) := by
  induction changes generalizing k with
  | nil => rfl
  | cons r rest ih =>
    by_cases hd : (load_file_data fs r).data_size > 0
    · simp [send_loop, hsend, hd, ih, frame]
    · simp [send_loop, hsend, hd, ih, frame]

theorem wire_stream_frames (rs : List sync_record) :
    wire_stream (rs.flatMap frame) = rs.flatMap frame_bytes := by
  induction rs with
  | nil => rfl
  | cons r rs ih =>
    unfold wire_stream at ih ⊢
    by_cases hd : r.data_size > 0
    · simp [frame, frame_bytes, hd, sent_item.bytes, ih]
    · have : r.data_size = 0 := by omega
      simp [frame, frame_bytes, this, sent_item.bytes, ih]

theorem send_changes_all_ok (fs : List Nat → Option (List Nat)) (net : network)
    (hconn : net.connect_ok = true) (hsend : ∀ k, net.send_ok k = true)
    (changes : List sync_record) :
    send_changes_to_server fs net changes =
      (sent_item.count (changes.length : Int) :: (changes.map (load_file_data fs)).flatMap frame,
        1) := by
  simp [send_changes_to_server, hconn, hsend, send_loop_all_ok fs net hsend]

/-! ## Lemmas about the receive loop -/

theorem receive_loop_frames (rs : List sync_record) (hty : ∀ r ∈ rs, c_typed r)
    (hsz : ∀ r ∈ rs, r.data_size ≤ BUFFER_SIZE) (i : Nat) (st : server_state)
    (behind : List Nat) (hst : st.stream = rs.flatMap frame_bytes ++ behind) :
    (receive_loop rs.length i st).stream = behind ∧
    (receive_loop rs.length i st).stores = st.stores ++ expected_stores i rs ∧
    (List.range' i rs.length).map (receive_loop rs.length i st).changes = rs ∧
    ∀ j < i, (receive_loop rs.length i st).changes j = st.changes j := by
  induction rs generalizing i st with
  | nil =>
    simp [receive_loop, expected_stores, hst]
  | cons r rs ih =>
    have hr := hty r (List.mem_cons_self _ _)
    have hrz := hsz r (List.mem_cons_self _ _)
    have hlen := length_encode_record r hr
    have hdata : r.data.length = BUFFER_SIZE := hr.2.2.2.2.2.2.2.2.2.1
    have hstream : st.stream =
        encode_record r ++ (r.data.take r.data_size ++ (rs.flatMap frame_bytes ++ behind)) := by
      rw [hst]
      simp [frame_bytes, List.append_assoc]
    have hrecv : recv st.stream sizeof_sync_record =
        (encode_record r, r.data.take r.data_size ++ (rs.flatMap frame_bytes ++ behind)) := by
      rw [recv, hstream, List.take_left' hlen, List.drop_left' hlen]
    have hdec : decode_record (overlay (encode_record r) (encode_record (st.changes i))) = r := by
      rw [overlay]
      exact decode_encode_record r hr _
    have htake : (r.data.take r.data_size).length = r.data_size := by
      rw [List.length_take, hdata]
      omega
    have hne : ¬ (encode_record r).length = 0 := by
      rw [hlen]
      decide
    rw [List.length_cons, receive_loop, hrecv]
    simp only [hne, if_false, hdec]
    by_cases hd : r.data_size > 0
    · have hrecv2 : recv (r.data.take r.data_size ++ (rs.flatMap frame_bytes ++ behind))
          (size_t_to_int r.data_size).toNat =
          (r.data.take r.data_size, rs.flatMap frame_bytes ++ behind) := by
        rw [size_t_to_int_small _ hrz, recv, List.take_left' htake, List.drop_left' htake]
      have hne2 : ¬ (r.data.take r.data_size).length = 0 := by
        rw [htake]
        omega
      have hov : overlay (r.data.take r.data_size) r.data = r.data := by
        rw [overlay, htake, List.take_append_drop]
      have hz0 : ¬ r.data_size = 0 := by omega
      simp only [hd, if_true, hrecv2, hne2, if_false, hov, htake, hz0]
      have := ih (fun x hx => hty x (List.mem_cons_of_mem _ hx))
        (fun x hx => hsz x (List.mem_cons_of_mem _ hx)) (i + 1)
        { stream := rs.flatMap frame_bytes ++ behind
          changes := Function.update st.changes i r
          stores := st.stores ++ [store_event.record i (encode_record r).length] ++
            [store_event.payload i r.data_size] } rfl
      obtain ⟨h1, h2, h3, h4⟩ := this
      refine ⟨h1, ?_, ?_, ?_⟩
      · rw [h2]
        simp [expected_stores, hd, hlen]
      · rw [List.range'_succ, List.map_cons, h3, h4 i (Nat.lt_succ_self i)]
        simp
      · intro j hj
        rw [h4 j (Nat.lt_succ_of_lt hj)]
        simp [Function.update, Nat.ne_of_lt hj]
    · have hz : r.data_size = 0 := by omega
      simp only [hd, if_false]
      have := ih (fun x hx => hty x (List.mem_cons_of_mem _ hx))
        (fun x hx => hsz x (List.mem_cons_of_mem _ hx)) (i + 1)
        { stream := r.data.take r.data_size ++ (rs.flatMap frame_bytes ++ behind)
          changes := Function.update st.changes i r
          stores := st.stores ++ [store_event.record i (encode_record r).length] }
        (by simp [hz])
      obtain ⟨h1, h2, h3, h4⟩ := this
      refine ⟨h1, ?_, ?_, ?_⟩
      · rw [h2]
        simp [expected_stores, hd, hlen]
      · rw [List.range'_succ, List.map_cons, h3, h4 i (Nat.lt_succ_self i)]
        simp
      · intro j hj
        rw [h4 j (Nat.lt_succ_of_lt hj)]
        simp [Function.update, Nat.ne_of_lt hj]

theorem serve_connection_frames (rs : List sync_record) (hty : ∀ r ∈ rs, c_typed r)
    (hsz : ∀ r ∈ rs, r.data_size ≤ BUFFER_SIZE) (hn : rs.length < 2 ^ 31)
    (change_count : Int) (memory : Nat → sync_record) :
    (serve_connection change_count memory
        (int_to_bytes 4 (rs.length : Int) ++ rs.flatMap frame_bytes)).applied =
      some (rs.length : Int) ∧
    (serve_connection change_count memory
        (int_to_bytes 4 (rs.length : Int) ++ rs.flatMap frame_bytes)).state.stream = [] ∧
    (serve_connection change_count memory
        (int_to_bytes 4 (rs.length : Int) ++ rs.flatMap frame_bytes)).state.stores =
      expected_stores 0 rs ∧
    (List.range rs.length).map
        (serve_connection change_count memory
          (int_to_bytes 4 (rs.length : Int) ++ rs.flatMap frame_bytes)).state.changes = rs := by
  have hlen4 : (int_to_bytes 4 (rs.length : Int)).length = 4 := length_int_to_bytes _ _
  have hrecv : recv (int_to_bytes 4 (rs.length : Int) ++ rs.flatMap frame_bytes) 4 =
      (int_to_bytes 4 (rs.length : Int), rs.flatMap frame_bytes) := by
    rw [recv, List.take_left' hlen4, List.drop_left' hlen4]
  have hov : overlay (int_to_bytes 4 (rs.length : Int)) (int_to_bytes 4 change_count) =
      int_to_bytes 4 (rs.length : Int) := by
    rw [overlay, hlen4, List.drop_of_length_le (by rw [length_int_to_bytes]), List.append_nil]
  have hcount : int_of_bytes 4 (int_to_bytes 4 (rs.length : Int)) = (rs.length : Int) :=
    int_of_bytes_to_bytes_4 _ (by omega) (by omega)
  have hloop := receive_loop_frames rs hty hsz 0
    { stream := rs.flatMap frame_bytes, changes := memory, stores := [] } [] (by simp)
  have hne : ¬ (int_to_bytes 4 (rs.length : Int)).length = 0 := by
    rw [hlen4]
    decide
  simp only [serve_connection, hrecv, hne, if_false, hov, hcount, Int.toNat_ofNat]
  obtain ⟨h1, h2, h3, _⟩ := hloop
  refine ⟨trivial, h1, ?_, ?_⟩
  · rw [h2]
    simp
  · rw [List.range_eq_range']
    exact h3

theorem record_mem_expected_stores (rs : List sync_record) (i j : Nat) (h1 : i ≤ j)
    (h2 : j < i + rs.length) :
    store_event.record j sizeof_sync_record ∈ expected_stores i rs := by
  induction rs generalizing i with
  | nil => simp at h2; omega
  | cons r rs ih =>
    by_cases hij : i = j
    · subst hij
      simp [expected_stores]
    · have := ih (i + 1) (by omega) (by simp at h2; omega)
      simp only [expected_stores, List.mem_cons, List.mem_append]
      exact Or.inr (Or.inr this)

theorem round_trip_of_count (fs : List Nat → Option (List Nat)) (net : network)
    (changes : List sync_record) (change_count : Int) (memory : Nat → sync_record)
    (hcount : changes.length < 2 ^ 31) (htyped : ∀ r ∈ changes, c_typed r)
    (hconn : net.connect_ok = true) (hsend : ∀ k, net.send_ok k = true) :
    (serve_connection change_count memory
        (wire_stream (send_changes_to_server fs net changes).1)).applied =
      some (changes.length : Int) ∧
    (List.range changes.length).map
        (serve_connection change_count memory
          (wire_stream (send_changes_to_server fs net changes).1)).state.changes =
      changes.map (load_file_data fs) ∧
    (serve_connection change_count memory
        (wire_stream (send_changes_to_server fs net changes).1)).state.stores =
      expected_stores 0 (changes.map (load_file_data fs)) ∧
    (serve_connection change_count memory
        (wire_stream (send_changes_to_server fs net changes).1)).state.stream = [] := by
  have hsent := send_changes_all_ok fs net hconn hsend changes
  have hwire : wire_stream (send_changes_to_server fs net changes).1 =
      int_to_bytes 4 (((changes.map (load_file_data fs)).length : Nat) : Int) ++
        (changes.map (load_file_data fs)).flatMap frame_bytes := by
    rw [hsent]
    have := wire_stream_frames (changes.map (load_file_data fs))
    unfold wire_stream at this ⊢
    simp only [List.flatMap_cons, this, sent_item.bytes, List.length_map]
  have h := serve_connection_frames (changes.map (load_file_data fs))
    (fun r hr => by
      obtain ⟨x, hx, rfl⟩ := List.mem_map.mp hr
      exact c_typed_load_file_data fs x (htyped x hx))
    (fun r hr => by
      obtain ⟨x, hx, rfl⟩ := List.mem_map.mp hr
      exact load_file_data_size_le fs x)
    (by
      rw [List.length_map]
      exact hcount)
    change_count memory
  rw [← hwire] at h
  simp only [List.length_map] at h
  exact ⟨h.1, h.2.2.2, h.2.2.1, h.2.1⟩

theorem length_path_buffer (s : String) (h : (cstr s).length ≤ MAX_PATH_LENGTH) :
    (path_buffer s).length = MAX_PATH_LENGTH := by
  simp only [path_buffer, List.length_append, List.length_replicate]
  omega

theorem c_typed_example_delete : c_typed example_delete :=
  ⟨by decide, by decide, length_path_buffer _ (by decide), by decide, by decide, by decide,
    by decide, by decide, by decide, List.length_replicate _ _, by decide⟩

/-! ## Capacity of the receiver -/

/-- C8 (failing input): when the sender declares and delivers 101 records, the
receive loop of `server_main` stores a record at index 100, which is not below
the dimension 100 of `changes`, and hands `apply_changes` the count 101. -/
theorem receive_loop_overruns_buffer :
    store_event.record 100 sizeof_sync_record ∈
      (serve_connection 0 zero_block
        (wire_stream (send_changes_to_server example_fs reliable_net
          (List.replicate 101 example_delete)).1)).state.stores ∧
    ¬ (∀ e ∈ (serve_connection 0 zero_block
        (wire_stream (send_changes_to_server example_fs reliable_net
          (List.replicate 101 example_delete)).1)).state.stores,
        store_event.index e < MAX_CHANGES) ∧
    (serve_connection 0 zero_block
        (wire_stream (send_changes_to_server example_fs reliable_net
          (List.replicate 101 example_delete)).1)).applied = some 101 := by
  have h := round_trip_of_count example_fs reliable_net (List.replicate 101 example_delete) 0
    zero_block (by rw [List.length_replicate]; norm_num)
    (fun r hr => by
      rw [List.eq_of_mem_replicate hr]
      exact c_typed_example_delete)
    rfl (fun _ => rfl)
  obtain ⟨happ, _, hstores, _⟩ := h
  have hmem : store_event.record 100 sizeof_sync_record ∈
      (serve_connection 0 zero_block
        (wire_stream (send_changes_to_server example_fs reliable_net
          (List.replicate 101 example_delete)).1)).state.stores := by
    rw [hstores]
    apply record_mem_expected_stores
    · omega
    · simp
  refine ⟨hmem, fun hall => ?_, ?_⟩
  · have := hall _ hmem
    simp [store_event.index, MAX_CHANGES] at this
  · rw [happ, List.length_replicate]
    rfl

/-! ## The codec -/

/-- C9: for a batch of at most 100 records (each of the size of its C type),
sent over a connection on which every call succeeds, the sender writes the
4-byte count, then for each record the record as `load_file_data` left it,
immediately followed by exactly `data_size` payload bytes when `data_size > 0`;
and the receive loop of `server_main`, applied to that byte stream, hands
`apply_changes` the same count, holds in `changes[0..count)` the same records
in the same order (operation, file, `data_size` and `data`), has stored for
each record the whole record and then exactly `data_size` payload bytes before
the next record, and has consumed the whole stream. -/
theorem codec_round_trip (fs : List Nat → Option (List Nat)) (net : network)
    (changes : List sync_record) (change_count : Int) (memory : Nat → sync_record)
    (hcount : changes.length ≤ MAX_CHANGES) (htyped : ∀ r ∈ changes, c_typed r)
    (hconn : net.connect_ok = true) (hsend : ∀ k, net.send_ok k = true) :
    send_changes_to_server fs net changes =
      (sent_item.count (changes.length : Int) ::
        (changes.map (load_file_data fs)).flatMap frame, 1) ∧
    (∀ r ∈ changes, (load_file_data fs r).operation = r.operation ∧
      (load_file_data fs r).file = r.file) ∧
    (serve_connection change_count memory
        (wire_stream (send_changes_to_server fs net changes).1)).applied =
      some (changes.length : Int) ∧
    (List.range changes.length).map
        (serve_connection change_count memory
          (wire_stream (send_changes_to_server fs net changes).1)).state.changes =
      changes.map (load_file_data fs) ∧
    (serve_connection change_count memory
        (wire_stream (send_changes_to_server fs net changes).1)).state.stores =
      expected_stores 0 (changes.map (load_file_data fs)) ∧
    (serve_connection change_count memory
        (wire_stream (send_changes_to_server fs net changes).1)).state.stream = [] := by
  have h := round_trip_of_count fs net changes change_count memory
    (by
      have : MAX_CHANGES = 100 := rfl
      omega)
    htyped hconn hsend
  exact ⟨send_changes_all_ok fs net hconn hsend changes,
    fun r _ => load_file_data_operation fs r, h⟩

theorem codec_round_trip_witness :
    send_changes_to_server example_fs reliable_net [example_create, example_delete] =
      (sent_item.count (([example_create, example_delete] : List sync_record).length : Int) ::
        ([example_create, example_delete].map (load_file_data example_fs)).flatMap frame, 1) ∧
    (∀ r ∈ [example_create, example_delete],
      (load_file_data example_fs r).operation = r.operation ∧
      (load_file_data example_fs r).file = r.file) ∧
    (serve_connection 0 zero_block
        (wire_stream (send_changes_to_server example_fs reliable_net
          [example_create, example_delete]).1)).applied =
      some (([example_create, example_delete] : List sync_record).length : Int) ∧
    (List.range ([example_create, example_delete] : List sync_record).length).map
        (serve_connection 0 zero_block
          (wire_stream (send_changes_to_server example_fs reliable_net
            [example_create, example_delete]).1)).state.changes =
      [example_create, example_delete].map (load_file_data example_fs) ∧
    (serve_connection 0 zero_block
        (wire_stream (send_changes_to_server example_fs reliable_net
          [example_create, example_delete]).1)).state.stores =
      expected_stores 0 ([example_create, example_delete].map (load_file_data example_fs)) ∧
    (serve_connection 0 zero_block
        (wire_stream (send_changes_to_server example_fs reliable_net
          [example_create, example_delete]).1)).state.stream = [] :=
  codec_round_trip example_fs reliable_net [example_create, example_delete] 0 zero_block
    (by decide)
    (fun r hr => by
      simp only [List.mem_cons, List.mem_singleton, List.not_mem_nil, or_false] at hr
      rcases hr with rfl | rfl
      · exact ⟨by decide, by decide, length_path_buffer _ (by decide), by decide, by decide,
          by decide, by decide, by decide, by decide, List.length_replicate _ _, by decide⟩
      · exact ⟨by decide, by decide, length_path_buffer _ (by decide), by decide, by decide,
          by decide, by decide, by decide, by decide, List.length_replicate _ _, by decide⟩)
    rfl (fun _ => rfl)

/-! ## The payload invariant on the wire -/

theorem record_mem_send_loop (fs : List Nat → Option (List Nat)) (net : network)
    (changes : List sync_record) (k : Nat) (r : sync_record)
    (h : sent_item.record r ∈ (send_loop fs net changes k).1) :
    ∃ x ∈ changes, r = load_file_data fs x := by
  induction changes generalizing k with
  | nil => simp [send_loop] at h
  | cons x rest ih =>
    rw [send_loop] at h
    split at h
    · simp at h
    · split at h
      · split at h
        · simp only [List.mem_singleton, sent_item.record.injEq] at h
          exact ⟨x, List.mem_cons_self _ _, h⟩
        · simp only [List.mem_cons, sent_item.record.injEq, reduceCtorEq, false_or] at h
          rcases h with h | h
          · exact ⟨x, List.mem_cons_self _ _, h⟩
          · obtain ⟨y, hy, hr⟩ := ih (k + 2) h
            exact ⟨y, List.mem_cons_of_mem _ hy, hr⟩
      · simp only [List.mem_cons, sent_item.record.injEq] at h
        rcases h with h | h
        · exact ⟨x, List.mem_cons_self _ _, h⟩
        · obtain ⟨y, hy, hr⟩ := ih (k + 1) h
          exact ⟨y, List.mem_cons_of_mem _ hy, hr⟩

theorem send_loop_head (fs : List Nat → Option (List Nat)) (net : network)
    (changes : List sync_record) (k : Nat) (bytes : List Nat) (rest : List sent_item) :
    (send_loop fs net changes k).1 ≠ sent_item.file_data bytes :: rest := by
  cases changes with
  | nil => simp [send_loop]
  | cons x xs =>
    rw [send_loop]
    split
    · simp
    · split
      · split <;> simp
      · simp

theorem load_file_data_no_payload (fs : List Nat → Option (List Nat)) (x : sync_record)
    (h : (load_file_data fs x).operation = SYNC_DELETE ∨
      (load_file_data fs x).file.is_directory ≠ 0) :
    (load_file_data fs x).data_size = 0 := by
  by_contra hne
  have hpos : (load_file_data fs x).data_size > 0 := Nat.pos_of_ne_zero hne
  obtain ⟨hop, hdir⟩ := load_file_data_payload fs x hpos
  obtain ⟨e1, e2⟩ := load_file_data_operation fs x
  rw [e1, e2] at h
  rcases h with h | h
  · rw [h] at hop
    rcases hop with hop | hop
    · exact absurd hop (by decide)
    · exact absurd hop (by decide)
  · exact h hdir

theorem send_loop_no_payload_after (fs : List Nat → Option (List Nat)) (net : network)
    (changes : List sync_record) (k : Nat) (pre post : List sent_item) (r : sync_record)
    (h : (send_loop fs net changes k).1 = pre ++ sent_item.record r :: post)
    (hr : r.operation = SYNC_DELETE ∨ r.file.is_directory ≠ 0) :
    ∀ bytes rest, post ≠ sent_item.file_data bytes :: rest := by
  induction changes generalizing k pre with
  | nil =>
    simp [send_loop] at h
  | cons x xs ih =>
    rw [send_loop] at h
    split at h
    · simp at h
    · split at h
      · rename_i hpos
        have hx : r ≠ load_file_data fs x := by
          intro he
          rw [he] at hr
          have := load_file_data_no_payload fs x hr
          omega
        split at h
        · cases pre with
          | nil =>
            simp only [List.nil_append, List.cons.injEq, sent_item.record.injEq] at h
            exact absurd h.1.symm hx
          | cons p pre' =>
            simp at h
        · cases pre with
          | nil =>
            simp only [List.nil_append, List.cons.injEq, sent_item.record.injEq] at h
            exact absurd h.1.symm hx
          | cons p pre' =>
            cases pre' with
            | nil =>
              simp at h
            | cons p' pre'' =>
              simp only [List.cons_append, List.cons.injEq] at h
              exact ih (k + 2) pre'' h.2.2
      · cases pre with
        | nil =>
          simp only [List.nil_append, List.cons.injEq, sent_item.record.injEq] at h
          intro bytes rest hpost
          rw [hpost] at h
          exact send_loop_head fs net xs (k + 1) bytes rest h.2
        | cons p pre' =>
          simp only [List.cons_append, List.cons.injEq] at h
          exact ih (k + 1) pre' h.2

/-- C10: whatever `data_size` the records hold on entry, every record
`send_changes_to_server` writes to the connection has `data_size > 0` only if
its operation is `SYNC_CREATE` or `SYNC_MODIFY` and it is not a directory;
every `SYNC_DELETE` record and every directory record is written with
`data_size = 0` and the `send` call after it carries no payload bytes. -/
theorem payload_invariant_on_wire (fs : List Nat → Option (List Nat)) (net : network)
    (changes : List sync_record) :
    (∀ r, sent_item.record r ∈ (send_changes_to_server fs net changes).1 →
      r.data_size > 0 →
      (r.operation = SYNC_CREATE ∨ r.operation = SYNC_MODIFY) ∧ r.file.is_directory = 0) ∧
    (∀ pre r post,
      (send_changes_to_server fs net changes).1 = pre ++ sent_item.record r :: post →
      (r.operation = SYNC_DELETE ∨ r.file.is_directory ≠ 0) →
      r.data_size = 0 ∧ ∀ bytes rest, post ≠ sent_item.file_data bytes :: rest) := by
  have hmem : ∀ r, sent_item.record r ∈ (send_changes_to_server fs net changes).1 →
      ∃ x ∈ changes, r = load_file_data fs x := by
    intro r h
    unfold send_changes_to_server at h
    split at h
    · simp at h
    · split at h
      · simp at h
      · simp only [List.mem_cons, reduceCtorEq, false_or] at h
        exact record_mem_send_loop fs net changes 1 r h
  constructor
  · intro r h hpos
    obtain ⟨x, _, rfl⟩ := hmem r h
    obtain ⟨e1, e2⟩ := load_file_data_operation fs x
    rw [e1, e2]
    exact load_file_data_payload fs x hpos
  · intro pre r post h hr
    constructor
    · have hin : sent_item.record r ∈ (send_changes_to_server fs net changes).1 := by
        rw [h]
        simp
      obtain ⟨x, _, rfl⟩ := hmem r hin
      exact load_file_data_no_payload fs x hr
    · unfold send_changes_to_server at h
      split at h
      · simp at h
      · split at h
        · simp at h
        · cases pre with
          | nil => simp at h
          | cons p pre' =>
            simp only [List.cons_append, List.cons.injEq] at h
            exact send_loop_no_payload_after fs net changes 1 pre' post r h.2 hr

set_option maxRecDepth 20000 in
theorem payload_invariant_on_wire_witness :
    (load_file_data example_fs example_delete).data_size = 0 ∧
    ∀ bytes rest,
      [sent_item.record (load_file_data example_fs example_create),
        sent_item.file_data (cstr "hello")] ≠ sent_item.file_data bytes :: rest :=
  (payload_invariant_on_wire example_fs reliable_net [example_delete, example_create]).2
    [sent_item.count 2] (load_file_data example_fs example_delete)
    [sent_item.record (load_file_data example_fs example_create),
      sent_item.file_data (cstr "hello")]
    (by decide) (Or.inl rfl)

/-! ## Payload truncation -/

theorem load_file_data_opened (fs : List Nat → Option (List Nat)) (r : sync_record)
    (content : List Nat)
    (hop : r.operation = SYNC_CREATE ∨ r.operation = SYNC_MODIFY)
    (hdir : r.file.is_directory = 0) (hfile : fs r.file.path = some content) :
    load_file_data fs r =
      { r with
        data := content.take BUFFER_SIZE ++ r.data.drop (content.take BUFFER_SIZE).length
        data_size := (content.take BUFFER_SIZE).length } := by
  unfold load_file_data
  rw [if_pos ⟨hop, hdir⟩, hfile]

theorem frame_mem_flatMap (rs : List sync_record) (r : sync_record) (hr : r ∈ rs) :
    ∃ pre post, rs.flatMap frame = pre ++ frame r ++ post := by
  obtain ⟨s, t, rfl⟩ := List.append_of_mem hr
  exact ⟨s.flatMap frame, t.flatMap frame, by simp [List.flatMap_append]⟩

/-- C11: for a `SYNC_CREATE` or `SYNC_MODIFY` record of a non-directory whose
source file opens with content `c`, `send_changes_to_server` sets `data_size`
to `min |c| 1024`, and (every call succeeding) sends the record immediately
followed by the first `min |c| 1024` bytes of `c` as its payload; a file larger
than 1024 bytes is cut to exactly 1024 bytes. For every record whatever,
`data_size` as sent does not exceed 1024. -/
theorem payload_truncated_to_capacity (fs : List Nat → Option (List Nat)) (net : network)
    (changes : List sync_record) (r : sync_record) (content : List Nat)
    (hr : r ∈ changes)
    (hop : r.operation = SYNC_CREATE ∨ r.operation = SYNC_MODIFY)
    (hdir : r.file.is_directory = 0) (hfile : fs r.file.path = some content)
    (hconn : net.connect_ok = true) (hsend : ∀ k, net.send_ok k = true) :
    (load_file_data fs r).data_size = min content.length BUFFER_SIZE ∧
    (load_file_data fs r).data.take (load_file_data fs r).data_size =
      content.take (min content.length BUFFER_SIZE) ∧
    (BUFFER_SIZE < content.length → (load_file_data fs r).data_size = BUFFER_SIZE) ∧
    (∀ x ∈ changes, (load_file_data fs x).data_size ≤ BUFFER_SIZE) ∧
    (∃ pre post, (send_changes_to_server fs net changes).1 =
      pre ++ sent_item.record (load_file_data fs r) ::
        (if content = [] then []
          else [sent_item.file_data (content.take (min content.length BUFFER_SIZE))]) ++
        post) := by
  have hload := load_file_data_opened fs r content hop hdir hfile
  have hsize : (load_file_data fs r).data_size = min content.length BUFFER_SIZE := by
    rw [hload]
    simp [List.length_take, Nat.min_comm]
  have htake : content.take (min content.length BUFFER_SIZE) = content.take BUFFER_SIZE := by
    rcases Nat.le_total content.length BUFFER_SIZE with h | h
    · rw [Nat.min_eq_left h, List.take_of_length_le h, List.take_of_length_le (le_refl _)]
    · rw [Nat.min_eq_right h]
  have hpayload : (load_file_data fs r).data.take (load_file_data fs r).data_size =
      content.take (min content.length BUFFER_SIZE) := by
    rw [htake, hload]
    exact List.take_left _ _
  refine ⟨hsize, hpayload, fun h => ?_, fun x _ => load_file_data_size_le fs x, ?_⟩
  · rw [hsize]
    exact Nat.min_eq_right (Nat.le_of_lt h)
  · rw [send_changes_all_ok fs net hconn hsend changes]
    obtain ⟨pre, post, hpp⟩ := frame_mem_flatMap (changes.map (load_file_data fs))
      (load_file_data fs r) (List.mem_map_of_mem _ hr)
    refine ⟨sent_item.count (changes.length : Int) :: pre, post, ?_⟩
    show sent_item.count (changes.length : Int) ::
      (changes.map (load_file_data fs)).flatMap frame = _
    rw [hpp]
    have hframe : frame (load_file_data fs r) =
        sent_item.record (load_file_data fs r) ::
          (if content = [] then []
            else [sent_item.file_data (content.take (min content.length BUFFER_SIZE))]) := by
      unfold frame
      rw [hpayload, hsize]
      by_cases hc : content = []
      · subst hc
        simp
      · have hpos : 0 < content.length := List.length_pos.mpr hc
        have : min content.length BUFFER_SIZE > 0 := by
          have : BUFFER_SIZE = 1024 := rfl
          omega
        simp [hc, this]
    rw [hframe]
    simp

theorem payload_truncated_to_capacity_witness :
    (load_file_data example_fs example_create).data_size = min (cstr "hello").length BUFFER_SIZE ∧
    (load_file_data example_fs example_create).data.take
        (load_file_data example_fs example_create).data_size =
      (cstr "hello").take (min (cstr "hello").length BUFFER_SIZE) ∧
    (BUFFER_SIZE < (cstr "hello").length →
      (load_file_data example_fs example_create).data_size = BUFFER_SIZE) ∧
    (∀ x ∈ [example_create, example_delete],
      (load_file_data example_fs x).data_size ≤ BUFFER_SIZE) ∧
    (∃ pre post,
      (send_changes_to_server example_fs reliable_net [example_create, example_delete]).1 =
      pre ++ sent_item.record (load_file_data example_fs example_create) ::
        (if cstr "hello" = [] then []
          else [sent_item.file_data ((cstr "hello").take (min (cstr "hello").length BUFFER_SIZE))]) ++
        post) :=
  payload_truncated_to_capacity example_fs reliable_net [example_create, example_delete]
    example_create (cstr "hello") (by simp) (Or.inl rfl) rfl (by simp [example_fs, example_create])
    rfl (fun _ => rfl)

/-! ## Modification-time conversion -/

theorem filetime_to_time_t_eq (q : Nat) (hq : q < 2 ^ 64) (h1970 : 116444736000000000 ≤ q) :
    filetime_to_time_t q = ((q / 10000000 - 11644473600 : Nat) : Int) := by
  have hq2 : q < 18446744073709551616 := by norm_num at hq; exact hq
  have hmod : q % 2 ^ 64 = q := Nat.mod_eq_of_lt hq
  have hwrap : (q / 10000000 + (2 ^ 64 - 11644473600)) % 2 ^ 64 = q / 10000000 - 11644473600 := by
    norm_num
    omega
  unfold filetime_to_time_t
  rw [hmod, hwrap, int_of_bytes, of_le_to_le_8 _ (by omega)]
  norm_num
  omega

/-- C17: for a 64-bit Windows file time `q` at or after 1970-01-01
(`q ≥ 116444736000000000`), the `last_modified` that `scan_directory` records
is `q / 10000000 - 11644473600`, which equals
`(q - 116444736000000000) / 10000000`, the whole seconds since the Unix epoch;
the unsigned 64-bit subtraction does not wrap around
(`11644473600 ≤ q / 10000000`). -/
theorem last_modified_is_epoch_seconds (normalized_dir : List Nat) (d : find_data)
    (hlow : d.dwLowDateTime < 2 ^ 32) (hhigh : d.dwHighDateTime < 2 ^ 32)
    (h1970 : 116444736000000000 ≤ d.dwHighDateTime * 2 ^ 32 + d.dwLowDateTime) :
    (scanned_entry normalized_dir d).last_modified =
      (((d.dwHighDateTime * 2 ^ 32 + d.dwLowDateTime) / 10000000 : Nat) : Int) - 11644473600 ∧
    (scanned_entry normalized_dir d).last_modified =
      (((d.dwHighDateTime * 2 ^ 32 + d.dwLowDateTime - 116444736000000000) / 10000000 : Nat) : Int) ∧
    11644473600 ≤ (d.dwHighDateTime * 2 ^ 32 + d.dwLowDateTime) / 10000000 ∧
    (d.dwHighDateTime * 2 ^ 32 + d.dwLowDateTime) / 10000000 < 2 ^ 64 := by
  have hl : d.dwLowDateTime < 4294967296 := by norm_num at hlow; exact hlow
  have hh : d.dwHighDateTime < 4294967296 := by norm_num at hhigh; exact hhigh
  have hq : quad_part d.dwLowDateTime d.dwHighDateTime =
      d.dwHighDateTime * 2 ^ 32 + d.dwLowDateTime := by
    unfold quad_part
    rw [Nat.mod_eq_of_lt hlow, Nat.mod_eq_of_lt hhigh]
  have hlt : d.dwHighDateTime * 2 ^ 32 + d.dwLowDateTime < 2 ^ 64 := by
    norm_num
    omega
  have hval : (scanned_entry normalized_dir d).last_modified =
      (((d.dwHighDateTime * 2 ^ 32 + d.dwLowDateTime) / 10000000 - 11644473600 : Nat) : Int) := by
    simp only [scanned_entry]
    rw [hq]
    exact filetime_to_time_t_eq _ hlt h1970
  norm_num at h1970 hlt hval ⊢
  refine ⟨?_, ?_, ?_, ?_⟩
  · rw [hval]
    omega
  · rw [hval]
    omega
  · omega
  · omega

theorem last_modified_is_epoch_seconds_witness :
    (scanned_entry (cstr "w") ⟨cstr "a.txt", 32, 3577643008, 30000000, 5, 0⟩).last_modified =
      (((30000000 * 2 ^ 32 + 3577643008) / 10000000 : Nat) : Int) - 11644473600 ∧
    (scanned_entry (cstr "w") ⟨cstr "a.txt", 32, 3577643008, 30000000, 5, 0⟩).last_modified =
      (((30000000 * 2 ^ 32 + 3577643008 - 116444736000000000) / 10000000 : Nat) : Int) ∧
    11644473600 ≤ (30000000 * 2 ^ 32 + 3577643008) / 10000000 ∧
    (30000000 * 2 ^ 32 + 3577643008) / 10000000 < 2 ^ 64 :=
  last_modified_is_epoch_seconds (cstr "w") ⟨cstr "a.txt", 32, 3577643008, 30000000, 5, 0⟩
    (by decide) (by decide) (by decide)

/-! ## Intermediate directories -/

theorem c_string_of_no_nul (s behind : List Nat) (h : ∀ c ∈ s, c ≠ 0) :
    c_string (s ++ 0 :: behind) = s := by
  induction s with
  | nil => simp [c_string]
  | cons x xs ih =>
    have hx : x ≠ 0 := h x (List.mem_cons_self _ _)
    have := ih (fun c hc => h c (List.mem_cons_of_mem _ hc))
    simp only [c_string] at this ⊢
    rw [List.cons_append, List.takeWhile_cons_of_pos (by simpa using hx), this]

theorem c_string_self (s : List Nat) (h : ∀ c ∈ s, c ≠ 0) : c_string s = s := by
  unfold c_string
  rw [List.takeWhile_eq_self_iff]
  intro c hc
  simpa using h c hc

theorem c_string_no_nul (buf : List Nat) : ∀ c ∈ c_string buf, c ≠ 0 := by
  intro c hc
  unfold c_string at hc
  simpa using List.mem_takeWhile_imp hc

theorem separator_prefixes_cons (x : Nat) (xs : List Nat) :
    separator_prefixes (x :: xs) =
      (if x = 92 then [[]] else []) ++ (separator_prefixes xs).map (fun p => x :: p) := by
  have hmap : List.map (fun i => List.take i (x :: xs)) (List.map Nat.succ
      (List.filter ((fun i => decide ((x :: xs)[i]? = some 92)) ∘ Nat.succ)
        (List.range xs.length))) =
      List.map (fun p => x :: p) (List.map (fun i => List.take i xs)
        (List.filter (fun i => decide (xs[i]? = some 92)) (List.range xs.length))) := by
    rw [List.map_map, List.map_map]
    have hf : ((fun i => decide ((x :: xs)[i]? = some 92)) ∘ Nat.succ) =
        (fun i => decide (xs[i]? = some 92)) := by
      funext i
      simp
    rw [hf]
    apply List.map_congr_left
    intro i _
    simp
  unfold separator_prefixes
  rw [List.length_cons, List.range_succ_eq_map, List.filter_cons, List.filter_map]
  by_cases hx : x = 92
  · have h0 : decide ((x :: xs)[0]? = some 92) = true := by simp [hx]
    rw [h0, if_pos rfl, if_pos hx, List.map_cons, hmap]
    rfl
  · have h0 : decide ((x :: xs)[0]? = some 92) = false := by simp [hx]
    rw [h0, if_neg (by decide), if_neg hx, hmap]
    rfl

theorem separator_prefixes_append (xs ys : List Nat) :
    separator_prefixes (xs ++ ys) =
      separator_prefixes xs ++ (separator_prefixes ys).map (fun p => xs ++ p) := by
  induction xs with
  | nil => simp [separator_prefixes]
  | cons x xs ih =>
    rw [List.cons_append, separator_prefixes_cons, separator_prefixes_cons, ih]
    simp [Function.comp]

theorem separator_prefixes_of_not_mem (xs : List Nat) (h : 92 ∉ xs) :
    separator_prefixes xs = [] := by
  induction xs with
  | nil => rfl
  | cons x xs ih =>
    rw [separator_prefixes_cons, ih (fun hm => h (List.mem_cons_of_mem _ hm))]
    have : x ≠ 92 := fun hx => h (hx ▸ List.mem_cons_self _ _)
    simp [this]

theorem strrchr_none_of_not_mem (xs : List Nat) (c : Nat) (h : c ∉ xs) : strrchr xs c = none := by
  induction xs with
  | nil => rfl
  | cons x xs ih =>
    have hx : ¬ x = c := fun hx => h (hx ▸ List.mem_cons_self _ _)
    rw [strrchr, ih (fun hm => h (List.mem_cons_of_mem _ hm))]
    by_cases h0 : x = 0
    · simp [h0]
    · simp [h0, hx]

theorem strrchr_of_last (pre post : List Nat) (hpre : ∀ c ∈ pre, c ≠ 0) (hpost : 92 ∉ post) :
    strrchr (pre ++ 92 :: post) 92 = some (92 :: post) := by
  induction pre with
  | nil =>
    rw [List.nil_append, strrchr, strrchr_none_of_not_mem post 92 hpost]
    simp
  | cons x xs ih =>
    have hx : x ≠ 0 := hpre x (List.mem_cons_self _ _)
    rw [List.cons_append, strrchr, ih (fun c hc => hpre c (List.mem_cons_of_mem _ hc))]
    simp [hx]

theorem split_at_last_separator (s : List Nat) (h : 92 ∈ s) :
    ∃ pre post, s = pre ++ 92 :: post ∧ 92 ∉ post := by
  induction s with
  | nil => cases h
  | cons x xs ih =>
    by_cases hxs : 92 ∈ xs
    · obtain ⟨pre, post, he, hp⟩ := ih hxs
      exact ⟨x :: pre, post, by rw [he]; rfl, hp⟩
    · have hx : x = 92 := by
        cases h with
        | head => rfl
        | tail _ hm => exact absurd hm hxs
      exact ⟨[], xs, by rw [hx]; rfl, hxs⟩

theorem mkdir_segments_eq (before xs post : List Nat) (hb : ∀ c ∈ before, c ≠ 0)
    (hxs : ∀ c ∈ xs, c ≠ 0) :
    mkdir_segments before (xs ++ 0 :: post) =
      (separator_prefixes xs).map (fun p => fs_call.mkdir (before ++ p)) := by
  induction xs generalizing before with
  | nil => simp [mkdir_segments, separator_prefixes]
  | cons x xs ih =>
    have hx : x ≠ 0 := hxs x (List.mem_cons_self _ _)
    have hxs' : ∀ c ∈ xs, c ≠ 0 := fun c hc => hxs c (List.mem_cons_of_mem _ hc)
    rw [List.cons_append, mkdir_segments, separator_prefixes_cons]
    by_cases h92 : x = 92
    · have hb' : ∀ c ∈ before ++ [92], c ≠ 0 := by
        intro c hc
        rcases List.mem_append.mp hc with h | h
        · exact hb c h
        · simp at h
          omega
      rw [if_pos h92, ih (before ++ [92]) hb' hxs', c_string_of_no_nul before _ hb]
      simp [h92, Function.comp]
    · have hb' : ∀ c ∈ before ++ [x], c ≠ 0 := by
        intro c hc
        rcases List.mem_append.mp hc with h | h
        · exact hb c h
        · simp at h
          omega
      rw [if_neg h92, if_neg hx, ih (before ++ [x]) hb' hxs']
      simp [h92, Function.comp]

theorem ensure_directories_eq (target_path : List Nat) (hnul : ∀ c ∈ target_path, c ≠ 0)
    (hsep : 92 ∈ target_path) :
    ensure_directories target_path =
      ((separator_prefixes target_path).map fs_call.mkdir, target_path) := by
  obtain ⟨pre, post, rfl, hpost⟩ := split_at_last_separator target_path hsep
  have hpre : ∀ c ∈ pre, c ≠ 0 := fun c hc => hnul c (List.mem_append_left _ hc)
  have hidx : (pre ++ 92 :: post).length - (92 :: post).length = pre.length := by
    simp
  have hcut : (pre ++ 92 :: post).set pre.length 0 = pre ++ 0 :: post := by
    simp [List.set_append]
  have hback : (pre ++ 0 :: post).set pre.length 92 = pre ++ 92 :: post := by
    simp [List.set_append]
  have hseg := mkdir_segments_eq [] pre post (by simp) hpre
  have hpref : separator_prefixes (pre ++ 92 :: post) = separator_prefixes pre ++ [pre] := by
    rw [separator_prefixes_append, separator_prefixes_cons,
      separator_prefixes_of_not_mem post hpost]
    simp
  unfold ensure_directories
  rw [strrchr_of_last pre post hpre hpost]
  simp only [hidx, hcut, hback, hseg, hpref, c_string_of_no_nul pre post hpre]
  simp

theorem snprintf_joined_no_nul (n : Nat) (a b : List Nat) :
    ∀ c ∈ snprintf_joined n a b, c ≠ 0 := by
  intro c hc
  unfold snprintf_joined at hc
  have hc2 := List.mem_of_mem_take hc
  simp only [List.mem_append, List.mem_singleton] at hc2
  rcases hc2 with (h | h) | h
  · exact c_string_no_nul a c h
  · omega
  · exact c_string_no_nul b c h

theorem compute_target_path_no_nul (normalized_target normalized_source : List Nat) :
    ∀ c ∈ compute_target_path normalized_target normalized_source, c ≠ 0 := by
  unfold compute_target_path
  split
  · split
    · split
      · exact snprintf_joined_no_nul _ _ _
      · split
        · exact snprintf_joined_no_nul _ _ _
        · exact c_string_no_nul _
    · split
      · exact snprintf_joined_no_nul _ _ _
      · exact c_string_no_nul _
  · exact c_string_no_nul _

theorem mem_separator_prefixes (path p : List Nat) :
    p ∈ separator_prefixes path ↔ ∃ rest, path = p ++ 92 :: rest := by
  unfold separator_prefixes
  simp only [List.mem_map, List.mem_filter, List.mem_range, decide_eq_true_eq]
  constructor
  · rintro ⟨i, ⟨hi, h92⟩, rfl⟩
    refine ⟨path.drop (i + 1), ?_⟩
    have hget : path[i] = 92 := by
      rw [List.getElem?_eq_getElem hi] at h92
      exact Option.some.inj h92
    rw [← hget, ← List.drop_eq_getElem_cons hi, List.take_append_drop]
  · rintro ⟨rest, rfl⟩
    refine ⟨p.length, ⟨by simp, ?_⟩, by simp⟩
    rw [List.getElem?_append_right (le_refl _)]
    simp

theorem separator_prefixes_increasing (path : List Nat) :
    (separator_prefixes path).Pairwise (fun p q => p.length < q.length) := by
  unfold separator_prefixes
  rw [List.pairwise_map]
  have hrange : (List.range path.length).Pairwise (fun i j => i < j) := List.pairwise_lt_range _
  have hfilter := hrange.filter (fun i => decide (path[i]? = some 92))
  refine List.Pairwise.imp_of_mem ?_ hfilter
  intro i j hi hj hij
  have hi' := List.mem_range.mp (List.mem_of_mem_filter hi)
  have hj' := List.mem_range.mp (List.mem_of_mem_filter hj)
  simp only [List.length_take]
  omega

/-- C16: when the target path computed for a record contains a separator,
`apply_changes` calls `_mkdir` on every proper prefix of the target path that
ends immediately before a separator, in order of increasing length (the last
being the part before the last separator, the target's parent directory),
then dispatches on the operation with the target path restored to its
original value. -/
theorem intermediate_directories_created (normalized_target : List Nat) (r : sync_record)
    (hsep : 92 ∈ compute_target_path normalized_target (normalize_path r.file.path)) :
    apply_record normalized_target r =
      (separator_prefixes
          (compute_target_path normalized_target (normalize_path r.file.path))).map
        fs_call.mkdir ++
      dispatch_operation r (compute_target_path normalized_target (normalize_path r.file.path)) ∧
    (ensure_directories
        (compute_target_path normalized_target (normalize_path r.file.path))).2 =
      compute_target_path normalized_target (normalize_path r.file.path) ∧
    (∀ p, p ∈ separator_prefixes
          (compute_target_path normalized_target (normalize_path r.file.path)) ↔
        ∃ rest, compute_target_path normalized_target (normalize_path r.file.path) =
          p ++ 92 :: rest) ∧
    (separator_prefixes
        (compute_target_path normalized_target (normalize_path r.file.path))).Pairwise
      (fun p q => p.length < q.length) ∧
    (∃ parent name,
      compute_target_path normalized_target (normalize_path r.file.path) =
        parent ++ 92 :: name ∧ 92 ∉ name ∧
      (separator_prefixes
          (compute_target_path normalized_target (normalize_path r.file.path))).getLast? =
        some parent) := by
  have hnul := compute_target_path_no_nul normalized_target (normalize_path r.file.path)
  have heq := ensure_directories_eq _ hnul hsep
  refine ⟨?_, ?_, fun p => mem_separator_prefixes _ p, separator_prefixes_increasing _, ?_⟩
  · unfold apply_record
    simp only [heq]
  · rw [heq]
  · obtain ⟨parent, name, he, hname⟩ := split_at_last_separator _ hsep
    refine ⟨parent, name, he, hname, ?_⟩
    rw [he, separator_prefixes_append, separator_prefixes_cons,
      separator_prefixes_of_not_mem name hname]
    simp

set_option maxRecDepth 20000 in
theorem intermediate_directories_created_witness :
    apply_record (cstr "T\\out") example_delete =
      (separator_prefixes
          (compute_target_path (cstr "T\\out") (normalize_path example_delete.file.path))).map
        fs_call.mkdir ++
      dispatch_operation example_delete
        (compute_target_path (cstr "T\\out") (normalize_path example_delete.file.path)) ∧
    (ensure_directories
        (compute_target_path (cstr "T\\out") (normalize_path example_delete.file.path))).2 =
      compute_target_path (cstr "T\\out") (normalize_path example_delete.file.path) ∧
    (∀ p, p ∈ separator_prefixes
          (compute_target_path (cstr "T\\out") (normalize_path example_delete.file.path)) ↔
        ∃ rest, compute_target_path (cstr "T\\out") (normalize_path example_delete.file.path) =
          p ++ 92 :: rest) ∧
    (separator_prefixes
        (compute_target_path (cstr "T\\out") (normalize_path example_delete.file.path))).Pairwise
      (fun p q => p.length < q.length) ∧
    (∃ parent name,
      compute_target_path (cstr "T\\out") (normalize_path example_delete.file.path) =
        parent ++ 92 :: name ∧ 92 ∉ name ∧
      (separator_prefixes
          (compute_target_path (cstr "T\\out")
            (normalize_path example_delete.file.path))).getLast? =
        some parent) :=
  intermediate_directories_created (cstr "T\\out") example_delete (by decide)

/-! ## Target-path derivation -/

theorem normalize_path_no_nul (path : List Nat) : ∀ c ∈ normalize_path path, c ≠ 0 := by
  intro c hc
  unfold normalize_path at hc
  obtain ⟨x, hx, rfl⟩ := List.mem_map.mp hc
  have := c_string_no_nul path x hx
  split <;> omega

theorem split_at_first_separator (s : List Nat) (h : 92 ∈ s) :
    ∃ a rest, s = a ++ 92 :: rest ∧ 92 ∉ a := by
  induction s with
  | nil => cases h
  | cons x xs ih =>
    by_cases hx : x = 92
    · exact ⟨[], xs, by rw [hx]; rfl, by simp⟩
    · have hxs : 92 ∈ xs := by
        cases h with
        | head => exact absurd rfl hx
        | tail _ hm => exact hm
      obtain ⟨a, rest, he, ha⟩ := ih hxs
      refine ⟨x :: a, rest, by rw [he]; rfl, ?_⟩
      intro hm
      rcases List.mem_cons.mp hm with h1 | h1
      · exact hx h1.symm
      · exact ha h1

theorem strchr_of_first (a rest : List Nat) (c : Nat) (hnul : ∀ x ∈ a, x ≠ 0) (hc : c ∉ a) :
    strchr (a ++ c :: rest) c = some (c :: rest) := by
  induction a with
  | nil => simp [strchr]
  | cons x xs ih =>
    have hx : ¬ x = c := fun h => hc (h ▸ List.mem_cons_self _ _)
    have h0 : ¬ x = 0 := hnul x (List.mem_cons_self _ _)
    rw [List.cons_append, strchr, if_neg hx, if_neg h0]
    exact ih (fun y hy => hnul y (List.mem_cons_of_mem _ hy))
      (fun hm => hc (List.mem_cons_of_mem _ hm))

theorem strchr_none_of_not_mem (s : List Nat) (c : Nat) (hc : c ∉ s) : strchr s c = none := by
  induction s with
  | nil => rfl
  | cons x xs ih =>
    have hx : ¬ x = c := fun h => hc (h ▸ List.mem_cons_self _ _)
    rw [strchr, if_neg hx, ih (fun hm => hc (List.mem_cons_of_mem _ hm))]
    simp

theorem skip_segment_to_separator (b c : List Nat) (hnul : ∀ x ∈ b, x ≠ 0) (hb : 92 ∉ b) :
    skip_segment (b ++ 92 :: c) = 92 :: c := by
  induction b with
  | nil => simp [skip_segment]
  | cons x xs ih =>
    have hx : x ≠ 92 := fun h => hb (h ▸ List.mem_cons_self _ _)
    have h0 : x ≠ 0 := hnul x (List.mem_cons_self _ _)
    rw [List.cons_append, skip_segment, if_pos ⟨h0, hx⟩]
    exact ih (fun y hy => hnul y (List.mem_cons_of_mem _ hy))
      (fun hm => hb (List.mem_cons_of_mem _ hm))

theorem skip_segment_to_end (b : List Nat) (hnul : ∀ x ∈ b, x ≠ 0) (hb : 92 ∉ b) :
    skip_segment b = [] := by
  induction b with
  | nil => rfl
  | cons x xs ih =>
    have hx : x ≠ 92 := fun h => hb (h ▸ List.mem_cons_self _ _)
    have h0 : x ≠ 0 := hnul x (List.mem_cons_self _ _)
    rw [skip_segment, if_pos ⟨h0, hx⟩]
    exact ih (fun y hy => hnul y (List.mem_cons_of_mem _ hy))
      (fun hm => hb (List.mem_cons_of_mem _ hm))

theorem snprintf_joined_of_no_nul (n : Nat) (a b : List Nat) (ha : ∀ x ∈ a, x ≠ 0)
    (hb : ∀ x ∈ b, x ≠ 0) : snprintf_joined n a b = (a ++ 92 :: b).take (n - 1) := by
  unfold snprintf_joined
  rw [c_string_self a ha, c_string_self b hb]
  simp

theorem c_string_strncpy (s : List Nat) (n : Nat) (hs : ∀ x ∈ s, x ≠ 0) :
    c_string (strncpy s n) = s.take n := by
  unfold strncpy
  rw [c_string_self s hs]
  have htake : ∀ x ∈ s.take n, x ≠ 0 := fun x hx => hs x (List.mem_of_mem_take hx)
  cases hk : n - s.length with
  | zero => simpa using c_string_self _ htake
  | succ k =>
    rw [List.replicate_succ]
    exact c_string_of_no_nul _ _ htake

theorem compute_target_path_nested (t s a b c : List Nat) (ht : ∀ x ∈ t, x ≠ 0)
    (hs : ∀ x ∈ s, x ≠ 0) (he : s = a ++ 92 :: (b ++ 92 :: c)) (ha : 92 ∉ a) (hb : 92 ∉ b) :
    compute_target_path t s = (t ++ 92 :: c).take (MAX_PATH_LENGTH - 1) := by
  subst he
  have ha0 : ∀ x ∈ a, x ≠ 0 := fun x hx => hs x (List.mem_append_left _ hx)
  have hb0 : ∀ x ∈ b, x ≠ 0 := fun x hx =>
    hs x (List.mem_append_right _ (List.mem_cons_of_mem _ (List.mem_append_left _ hx)))
  have hc0 : ∀ x ∈ c, x ≠ 0 := fun x hx =>
    hs x (List.mem_append_right _ (List.mem_cons_of_mem _
      (List.mem_append_right _ (List.mem_cons_of_mem _ hx))))
  unfold compute_target_path
  rw [strchr_of_first a _ 92 ha0 ha]
  simp only [skip_segment_to_separator b c hb0 hb]
  rw [if_pos (by decide), snprintf_joined_of_no_nul _ t c ht hc0]

theorem compute_target_path_filename (t s a b : List Nat) (ht : ∀ x ∈ t, x ≠ 0)
    (hs : ∀ x ∈ s, x ≠ 0) (he : s = a ++ 92 :: b) (ha : 92 ∉ a) (hb : 92 ∉ b) :
    compute_target_path t s = (t ++ 92 :: b).take (MAX_PATH_LENGTH - 1) := by
  subst he
  have ha0 : ∀ x ∈ a, x ≠ 0 := fun x hx => hs x (List.mem_append_left _ hx)
  have hb0 : ∀ x ∈ b, x ≠ 0 := fun x hx =>
    hs x (List.mem_append_right _ (List.mem_cons_of_mem _ hx))
  unfold compute_target_path
  rw [strchr_of_first a _ 92 ha0 ha]
  simp only [skip_segment_to_end b hb0 hb, strrchr_of_last a b ha0 hb]
  rw [snprintf_joined_of_no_nul _ t b ht hb0]

theorem compute_target_path_no_separator (t s : List Nat) (hs : ∀ x ∈ s, x ≠ 0)
    (hsep : 92 ∉ s) : compute_target_path t s = s.take MAX_PATH_LENGTH := by
  unfold compute_target_path
  rw [strchr_none_of_not_mem s 92 hsep]
  exact c_string_strncpy s _ hs

set_option maxRecDepth 20000 in
/-- C12 (counterexample): for the record of the bare file name `a.txt` and the
target directory `T`, the target path `apply_changes` computes is `a.txt`
itself; it is not the target directory followed by a separator and a suffix
of the source path, and the file is written outside the target directory. -/
theorem target_path_not_under_target_dir :
    compute_target_path (normalize_path (cstr "T")) (normalize_path bare_name_create.file.path) =
      cstr "a.txt" ∧
    apply_record (normalize_path (cstr "T")) bare_name_create =
      [fs_call.write_file (cstr "a.txt") (cstr "hello")] ∧
    ¬ ∃ suffix,
      compute_target_path (normalize_path (cstr "T"))
          (normalize_path bare_name_create.file.path) =
        normalize_path (cstr "T") ++ 92 :: suffix := by
  have h : compute_target_path (normalize_path (cstr "T"))
      (normalize_path bare_name_create.file.path) = cstr "a.txt" := by decide
  refine ⟨h, by decide, ?_⟩
  rintro ⟨suffix, hs⟩
  have hT : normalize_path (cstr "T") = [84] := by decide
  have ha : cstr "a.txt" = 97 :: cstr ".txt" := by decide
  rw [h, hT, ha] at hs
  simp at hs

/-- C12 (amended): with `T` the normalized target directory and `S` the
normalized source path of a record: when `S` contains a separator, the target
path is `T`, one separator and a suffix of `S`, cut to the 255 characters the
path buffer holds (so it is exactly `T\suffix` when that fits); the suffix is
what follows the second separator of `S` when `S` has the form `a\b\suffix`
with `a` and `b` free of separators, and the bare file name when `S` has the
form `a\suffix` with a single separator. When `S` contains no separator, the
target path is `S` itself (cut to 256 characters). -/
theorem target_path_derivation (target_dir : List Nat) (r : sync_record) :
    (92 ∈ normalize_path r.file.path →
      ∃ suffix, suffix <:+ normalize_path r.file.path ∧
        ((∃ a b, normalize_path r.file.path = a ++ 92 :: (b ++ 92 :: suffix) ∧
            92 ∉ a ∧ 92 ∉ b) ∨
          (∃ a, normalize_path r.file.path = a ++ 92 :: suffix ∧ 92 ∉ a ∧ 92 ∉ suffix)) ∧
        compute_target_path (normalize_path target_dir) (normalize_path r.file.path) =
          (normalize_path target_dir ++ 92 :: suffix).take (MAX_PATH_LENGTH - 1) ∧
        ((normalize_path target_dir ++ 92 :: suffix).length < MAX_PATH_LENGTH →
          compute_target_path (normalize_path target_dir) (normalize_path r.file.path) =
            normalize_path target_dir ++ 92 :: suffix)) ∧
    (92 ∉ normalize_path r.file.path →
      compute_target_path (normalize_path target_dir) (normalize_path r.file.path) =
        (normalize_path r.file.path).take MAX_PATH_LENGTH) := by
  have ht := normalize_path_no_nul target_dir
  have hs := normalize_path_no_nul r.file.path
  constructor
  · intro hsep
    obtain ⟨a, rest, he, ha⟩ := split_at_first_separator _ hsep
    have hfit : ∀ suffix : List Nat,
        compute_target_path (normalize_path target_dir) (normalize_path r.file.path) =
          (normalize_path target_dir ++ 92 :: suffix).take (MAX_PATH_LENGTH - 1) →
        (normalize_path target_dir ++ 92 :: suffix).length < MAX_PATH_LENGTH →
        compute_target_path (normalize_path target_dir) (normalize_path r.file.path) =
          normalize_path target_dir ++ 92 :: suffix := by
      intro suffix h1 h2
      rw [h1]
      apply List.take_of_length_le
      omega
    by_cases hrest : 92 ∈ rest
    · obtain ⟨b, c, he2, hb⟩ := split_at_first_separator _ hrest
      have he3 : normalize_path r.file.path = a ++ 92 :: (b ++ 92 :: c) := by rw [he, he2]
      have hcomp := compute_target_path_nested (normalize_path target_dir) _ a b c ht hs he3 ha hb
      refine ⟨c, ?_, Or.inl ⟨a, b, he3, ha, hb⟩, hcomp, hfit c hcomp⟩
      rw [he3]
      exact ⟨a ++ 92 :: (b ++ [92]), by simp⟩
    · have hcomp := compute_target_path_filename (normalize_path target_dir) _ a rest ht hs he
        ha hrest
      refine ⟨rest, ?_, Or.inr ⟨a, he, ha, hrest⟩, hcomp, hfit rest hcomp⟩
      rw [he]
      exact ⟨a ++ [92], by simp⟩
  · intro hsep
    exact compute_target_path_no_separator _ _ hs hsep

set_option maxRecDepth 20000 in
theorem target_path_derivation_witness :
    (∃ suffix, suffix <:+ normalize_path example_delete.file.path ∧
        ((∃ a b, normalize_path example_delete.file.path = a ++ 92 :: (b ++ 92 :: suffix) ∧
            92 ∉ a ∧ 92 ∉ b) ∨
          (∃ a, normalize_path example_delete.file.path = a ++ 92 :: suffix ∧
            92 ∉ a ∧ 92 ∉ suffix)) ∧
        compute_target_path (normalize_path (cstr "T")) (normalize_path example_delete.file.path) =
          (normalize_path (cstr "T") ++ 92 :: suffix).take (MAX_PATH_LENGTH - 1) ∧
        ((normalize_path (cstr "T") ++ 92 :: suffix).length < MAX_PATH_LENGTH →
          compute_target_path (normalize_path (cstr "T"))
              (normalize_path example_delete.file.path) =
            normalize_path (cstr "T") ++ 92 :: suffix)) ∧
    compute_target_path (normalize_path (cstr "T")) (normalize_path bare_name_create.file.path) =
      (normalize_path bare_name_create.file.path).take MAX_PATH_LENGTH :=
  ⟨(target_path_derivation (cstr "T") example_delete).1 (by decide),
    (target_path_derivation (cstr "T") bare_name_create).2 (by decide)⟩

/-! ## Replication of scanned entries under the target -/

theorem normalize_path_no_slash (path : List Nat) : ∀ c ∈ normalize_path path, c ≠ 47 := by
  intro c hc
  unfold normalize_path at hc
  obtain ⟨x, _, rfl⟩ := List.mem_map.mp hc
  split <;> omega

theorem normalize_path_of_clean (s : List Nat) (k : Nat)
    (hs : ∀ x ∈ s, x ≠ 0 ∧ x ≠ 47) :
    normalize_path (s ++ List.replicate (k + 1) 0) = s := by
  unfold normalize_path
  rw [List.replicate_succ, c_string_of_no_nul s _ (fun x hx => (hs x hx).1)]
  conv_rhs => rw [← List.map_id s]
  apply List.map_congr_left
  intro x hx
  simp [(hs x hx).2]

theorem normalize_scanned_path (nd : List Nat) (d : find_data)
    (hnd : ∀ x ∈ nd, x ≠ 0 ∧ x ≠ 47)
    (hname : ∀ x ∈ c_string d.cFileName, x ≠ 47)
    (hfit : (nd ++ 92 :: c_string d.cFileName).length < MAX_PATH_LENGTH) :
    normalize_path (scanned_entry nd d).path = nd ++ 92 :: c_string d.cFileName := by
  have hclean : ∀ x ∈ nd ++ 92 :: c_string d.cFileName, x ≠ 0 ∧ x ≠ 47 := by
    intro x hx
    rcases List.mem_append.mp hx with h | h
    · exact hnd x h
    · rcases List.mem_cons.mp h with h | h
      · omega
      · exact ⟨c_string_no_nul _ x h, hname x h⟩
  have hlen : (nd ++ 92 :: c_string d.cFileName).length < 256 := hfit
  have hjoin : snprintf_joined MAX_PATH_LENGTH nd d.cFileName = nd ++ 92 :: c_string d.cFileName := by
    unfold snprintf_joined
    rw [c_string_self nd (fun x hx => (hnd x hx).1)]
    have : nd ++ [92] ++ c_string d.cFileName = nd ++ 92 :: c_string d.cFileName := by simp
    rw [this]
    apply List.take_of_length_le
    show _ ≤ 256 - 1
    omega
  have hcopy : strncpy (nd ++ 92 :: c_string d.cFileName) MAX_PATH_LENGTH =
      (nd ++ 92 :: c_string d.cFileName) ++
        List.replicate (255 - (nd ++ 92 :: c_string d.cFileName).length + 1) 0 := by
    unfold strncpy
    rw [c_string_self _ (fun x hx => (hclean x hx).1),
      List.take_of_length_le (by show _ ≤ 256; omega)]
    congr 2
    show 256 - _ = _
    omega
  simp only [scanned_entry]
  rw [hjoin, hcopy]
  exact normalize_path_of_clean _ _ hclean

set_option maxRecDepth 20000 in
/-- C18 (counterexample): for the watched directory `C:\a\b`, whose path has
two separators, the entry `f.txt` is recorded as `C:\a\b\f.txt` and mapped by
`apply_changes` to `T\b\f.txt`, not to `T\f.txt`: it is not an immediate child
of the target directory `T`. -/
theorem deep_directory_not_replicated_under_target :
    c_string (scanned_entry (normalize_path (cstr "C:\\a\\b")) example_entry).path =
      cstr "C:\\a\\b\\f.txt" ∧
    compute_target_path (normalize_path (cstr "T"))
        (normalize_path (scanned_entry (normalize_path (cstr "C:\\a\\b")) example_entry).path) =
      cstr "T\\b\\f.txt" ∧
    compute_target_path (normalize_path (cstr "T"))
        (normalize_path (scanned_entry (normalize_path (cstr "C:\\a\\b")) example_entry).path) ≠
      normalize_path (cstr "T") ++ 92 :: c_string example_entry.cFileName := by
  refine ⟨by decide, by decide, by decide⟩

/-- C18 (amended): for a watched directory `D` and an entry name `n` free of
separators, the record path `D\n` fitting the path buffer: when the normalized
`D` contains no separator or exactly one, `apply_changes` maps the record
path to `targetDir\n` (cut to the 255 characters of the buffer); when the
normalized `D` has the form `a\b\c` with `a` and `b` free of separators, it
maps the record path to `targetDir\c\n`, keeping the part of `D` after its
second separator. -/
theorem scanned_entry_target_path (dir_path target_dir : List Nat) (d : find_data)
    (hname : ∀ x ∈ c_string d.cFileName, x ≠ 92 ∧ x ≠ 47)
    (hfit : (normalize_path dir_path ++ 92 :: c_string d.cFileName).length < MAX_PATH_LENGTH) :
    ((92 ∉ normalize_path dir_path ∨
        ∃ a b, normalize_path dir_path = a ++ 92 :: b ∧ 92 ∉ a ∧ 92 ∉ b) →
      compute_target_path (normalize_path target_dir)
          (normalize_path (scanned_entry (normalize_path dir_path) d).path) =
        (normalize_path target_dir ++ 92 :: c_string d.cFileName).take (MAX_PATH_LENGTH - 1)) ∧
    (∀ a b c, normalize_path dir_path = a ++ 92 :: (b ++ 92 :: c) → 92 ∉ a → 92 ∉ b →
      compute_target_path (normalize_path target_dir)
          (normalize_path (scanned_entry (normalize_path dir_path) d).path) =
        (normalize_path target_dir ++ 92 :: (c ++ 92 :: c_string d.cFileName)).take
          (MAX_PATH_LENGTH - 1)) := by
  have ht := normalize_path_no_nul target_dir
  have hnd : ∀ x ∈ normalize_path dir_path, x ≠ 0 ∧ x ≠ 47 :=
    fun x hx => ⟨normalize_path_no_nul _ x hx, normalize_path_no_slash _ x hx⟩
  have hsrc := normalize_scanned_path (normalize_path dir_path) d hnd
    (fun x hx => (hname x hx).2) hfit
  have hn92 : 92 ∉ c_string d.cFileName := fun h => (hname 92 h).1 rfl
  have hs0 : ∀ x ∈ normalize_path dir_path ++ 92 :: c_string d.cFileName, x ≠ 0 := by
    intro x hx
    rcases List.mem_append.mp hx with h | h
    · exact (hnd x h).1
    · rcases List.mem_cons.mp h with h | h
      · omega
      · exact c_string_no_nul _ x h
  rw [hsrc]
  constructor
  · rintro (hnone | ⟨a, b, he, ha, hb⟩)
    · exact compute_target_path_filename _ _ (normalize_path dir_path) (c_string d.cFileName)
        ht hs0 rfl hnone hn92
    · exact compute_target_path_nested _ _ a b (c_string d.cFileName) ht hs0
        (by rw [he]; simp) ha hb
  · intro a b c he ha hb
    exact compute_target_path_nested _ _ a b (c ++ 92 :: c_string d.cFileName) ht hs0
      (by rw [he]; simp) ha hb

set_option maxRecDepth 20000 in
theorem scanned_entry_target_path_witness :
    compute_target_path (normalize_path (cstr "T"))
        (normalize_path (scanned_entry (normalize_path (cstr "C:/w")) example_entry).path) =
      (normalize_path (cstr "T") ++ 92 :: c_string example_entry.cFileName).take
        (MAX_PATH_LENGTH - 1) ∧
    compute_target_path (normalize_path (cstr "T"))
        (normalize_path (scanned_entry (normalize_path (cstr "C:\\a\\b")) example_entry).path) =
      (normalize_path (cstr "T") ++ 92 :: (cstr "b" ++ 92 :: c_string example_entry.cFileName)).take
        (MAX_PATH_LENGTH - 1) :=
  ⟨(scanned_entry_target_path (cstr "C:/w") (cstr "T") example_entry (by decide) (by decide)).1
      (Or.inr ⟨cstr "C:", cstr "w", by decide, by decide, by decide⟩),
    (scanned_entry_target_path (cstr "C:\\a\\b") (cstr "T") example_entry (by decide)
      (by decide)).2 (cstr "C:") (cstr "a") (cstr "b") (by decide) (by decide) (by decide)⟩

/-! ## Receive failures and oversized payloads -/

theorem serve_connection_count (n : Nat) (hn : n < 2 ^ 31) (change_count : Int)
    (memory : Nat → sync_record) (rest : List Nat) :
    serve_connection change_count memory (int_to_bytes 4 (n : Int) ++ rest) =
      { state := receive_loop n 0 { stream := rest, changes := memory, stores := [] }
        change_count := (n : Int), applied := some (n : Int) } := by
  have hlen4 : (int_to_bytes 4 (n : Int)).length = 4 := length_int_to_bytes _ _
  have hrecv : recv (int_to_bytes 4 (n : Int) ++ rest) 4 = (int_to_bytes 4 (n : Int), rest) := by
    rw [recv, List.take_left' hlen4, List.drop_left' hlen4]
  have hov : overlay (int_to_bytes 4 (n : Int)) (int_to_bytes 4 change_count) =
      int_to_bytes 4 (n : Int) := by
    rw [overlay, hlen4, List.drop_of_length_le (by rw [length_int_to_bytes]), List.append_nil]
  have hcount : int_of_bytes 4 (int_to_bytes 4 (n : Int)) = (n : Int) :=
    int_of_bytes_to_bytes_4 _ (by omega) (by omega)
  have hne : ¬ (int_to_bytes 4 (n : Int)).length = 0 := by
    rw [hlen4]
    decide
  simp only [serve_connection, hrecv, hne, if_false, hov, hcount, Int.toNat_ofNat]

theorem receive_loop_step (r : sync_record) (hr : c_typed r) (payload behind : List Nat)
    (n i : Nat) (st : server_state)
    (hs : st.stream = encode_record r ++ (payload ++ behind))
    (hp : payload.length = (size_t_to_int r.data_size).toNat)
    (hpos : r.data_size > 0 → payload ≠ []) (hzero : r.data_size = 0 → payload = []) :
    receive_loop (n + 1) i st =
      receive_loop n (i + 1)
        { stream := behind
          changes := Function.update st.changes i { r with data := overlay payload r.data }
          stores := st.stores ++ store_event.record i sizeof_sync_record ::
            (if r.data_size > 0 then [store_event.payload i payload.length] else []) } := by
  have hlen := length_encode_record r hr
  have hrecv : recv st.stream sizeof_sync_record = (encode_record r, payload ++ behind) := by
    rw [recv, hs, List.take_left' hlen, List.drop_left' hlen]
  have hdec : decode_record (overlay (encode_record r) (encode_record (st.changes i))) = r := by
    rw [overlay]
    exact decode_encode_record r hr _
  have hne : ¬ (encode_record r).length = 0 := by
    rw [hlen]
    decide
  rw [receive_loop, hrecv]
  simp only [hne, if_false, hdec]
  by_cases hd : r.data_size > 0
  · have hrecv2 : recv (payload ++ behind) (size_t_to_int r.data_size).toNat =
        (payload, behind) := by
      rw [recv, List.take_left' hp, List.drop_left' hp]
    have hne2 : ¬ payload.length = 0 := fun h => hpos hd (List.length_eq_zero.mp h)
    simp only [hd, if_true, hrecv2, hne2, if_false, hlen, List.append_assoc,
      List.singleton_append]
  · have hz : r.data_size = 0 := by omega
    have hpe := hzero hz
    subst hpe
    simp only [hd, if_false, hlen, List.nil_append, overlay, List.length_nil, List.drop_zero]

theorem receive_loop_closed (n i : Nat) (st : server_state) (h : st.stream = []) :
    receive_loop n i st = st := by
  cases n with
  | zero => rfl
  | succ n =>
    rw [receive_loop, recv, h]
    rfl

theorem c_typed_oversized_record : c_typed oversized_record :=
  ⟨by decide, by decide, length_path_buffer _ (by decide), by decide, by decide, by decide,
    by decide, by decide, by decide, List.length_replicate _ _, by decide⟩

theorem c_typed_loaded_example_create : c_typed (load_file_data example_fs example_create) :=
  c_typed_load_file_data _ _
    ⟨by decide, by decide, length_path_buffer _ (by decide), by decide, by decide, by decide,
      by decide, by decide, by decide, List.length_replicate _ _, by decide⟩

/-- C20 (failing input): a record that declares `data_size = 2000`, followed
by 2000 payload bytes, makes the receive loop store 2000 bytes at
`changes[0].data`, a field of 1024 bytes. -/
theorem receive_loop_overruns_data_field :
    store_event.payload 0 2000 ∈
      (serve_connection 0 zero_block
        (int_to_bytes 4 1 ++ (encode_record oversized_record ++ List.replicate 2000 7))).state.stores ∧
    ¬ (2000 ≤ BUFFER_SIZE) ∧
    ((serve_connection 0 zero_block
        (int_to_bytes 4 1 ++
          (encode_record oversized_record ++ List.replicate 2000 7))).state.changes 0).data.length =
      2000 := by
  have hcount := serve_connection_count 1 (by norm_num) 0 zero_block
    (encode_record oversized_record ++ List.replicate 2000 7)
  have hstep := receive_loop_step oversized_record c_typed_oversized_record
    (List.replicate 2000 7) [] 0 0
    { stream := encode_record oversized_record ++ List.replicate 2000 7
      changes := zero_block, stores := [] }
    (by rw [List.append_nil]) (by rw [List.length_replicate]; decide)
    (fun _ h => by
      have := congrArg List.length h
      rw [List.length_replicate] at this
      cases this)
    (fun h => by cases h)
  have hcast : ((1 : Nat) : Int) = 1 := rfl
  rw [hcast] at hcount
  rw [hcount]
  rw [hstep]
  have hpos : oversized_record.data_size > 0 := by decide
  have hdata : oversized_record.data.length = BUFFER_SIZE := List.length_replicate _ _
  simp only [receive_loop, if_pos hpos, List.length_replicate, List.nil_append,
    Function.update_same, overlay]
  refine ⟨by simp, by decide, ?_⟩
  rw [List.length_append, List.length_replicate, List.length_drop, hdata]
  rfl

set_option maxRecDepth 20000 in
/-- C13 (failing input): the sender declares 2 records, delivers the first
(with its 5 payload bytes) and closes the connection. The receive of the
second record fails, yet `apply_changes` is handed the count 2: slot 1, never
received on this connection and still holding the `SYNC_DELETE` of `w\b.txt`
left by an earlier connection, is applied, and `T\b.txt` is deleted. -/
theorem receive_failure_still_applies_batch :
    (serve_connection 0 stale_memory
        (int_to_bytes 4 2 ++ frame_bytes (load_file_data example_fs example_create))).applied =
      some 2 ∧
    (serve_connection 0 stale_memory
        (int_to_bytes 4 2 ++
          frame_bytes (load_file_data example_fs example_create))).state.stores =
      [store_event.record 0 sizeof_sync_record, store_event.payload 0 5] ∧
    (serve_connection 0 stale_memory
        (int_to_bytes 4 2 ++
          frame_bytes (load_file_data example_fs example_create))).state.changes 1 =
      example_delete ∧
    fs_call.delete_file (cstr "T\\b.txt") ∈
      serve_and_apply 0 stale_memory
        (int_to_bytes 4 2 ++ frame_bytes (load_file_data example_fs example_create))
        (cstr "T") := by
  have hds : (load_file_data example_fs example_create).data_size = 5 := by decide
  have hlen : ((load_file_data example_fs example_create).data.take
      (load_file_data example_fs example_create).data_size).length = 5 := by
    rw [hds]
    decide
  have hcount := serve_connection_count 2 (by norm_num) 0 stale_memory
    (frame_bytes (load_file_data example_fs example_create))
  have hstep := receive_loop_step (load_file_data example_fs example_create)
    c_typed_loaded_example_create
    ((load_file_data example_fs example_create).data.take
      (load_file_data example_fs example_create).data_size) [] 1 0
    { stream := frame_bytes (load_file_data example_fs example_create)
      changes := stale_memory, stores := [] }
    (by rw [List.append_nil]; rfl)
    (by rw [hlen, hds]; decide)
    (fun _ h => by rw [h] at hlen; cases hlen)
    (fun h => by rw [hds] at h; cases h)
  have hcast : ((2 : Nat) : Int) = 2 := rfl
  rw [hcast] at hcount
  have hout : (serve_connection 0 stale_memory
      (int_to_bytes 4 2 ++ frame_bytes (load_file_data example_fs example_create))).state =
      { stream := []
        changes := Function.update stale_memory 0
          { load_file_data example_fs example_create with
            data := overlay ((load_file_data example_fs example_create).data.take
              (load_file_data example_fs example_create).data_size)
              (load_file_data example_fs example_create).data }
        stores := [store_event.record 0 sizeof_sync_record, store_event.payload 0 5] } := by
    rw [hcount]
    dsimp only
    change receive_loop (1 + 1) 0 _ = _
    rw [hstep, receive_loop_closed 1 1 _ rfl, hlen, hds]
    simp
  have happ : (serve_connection 0 stale_memory
      (int_to_bytes 4 2 ++ frame_bytes (load_file_data example_fs example_create))).applied =
      some 2 := by
    rw [hcount]
  have hslot : (serve_connection 0 stale_memory
      (int_to_bytes 4 2 ++
        frame_bytes (load_file_data example_fs example_create))).state.changes 1 =
      example_delete := by
    rw [hout]
    simp [Function.update, stale_memory]
  refine ⟨happ, by rw [hout], hslot, ?_⟩
  unfold serve_and_apply
  rw [happ]
  simp only [apply_changes]
  rw [List.mem_flatMap]
  refine ⟨1, by decide, ?_⟩
  rw [hslot]
  decide

/-! ## The watcher -/

theorem diff_self_nil (malloc_result : Option (Nat → sync_record)) (S : List file_info)
    (hS : unique_paths S) : compare_directories malloc_result S S = [] := by
  cases malloc_result with
  | none => rfl
  | some block =>
    rw [compare_directories_eq]
    have h1 : new_changes S S = [] := by
      unfold new_changes
      rw [List.filterMap_eq_nil_iff]
      intro n hn
      simp [new_entry_change, find_match_unique S n.path n hS hn (stricmp_refl _)]
    have h2 : deleted_changes S S = [] := by
      unfold deleted_changes
      rw [List.map_eq_nil_iff, List.filter_eq_nil_iff]
      intro o ho
      simp only [Bool.not_eq_true', Bool.not_eq_false]
      exact any_match_of_mem S o.path o ho (stricmp_refl _)
    rw [h1, h2]
    rfl

theorem watch_directory_snoc (dir_path : List Nat) (initial : scan_env) (polls : List poll_env)
    (env : poll_env) :
    watch_directory dir_path initial (polls ++ [env]) =
      watch_iteration dir_path (watch_directory dir_path initial polls) env := by
  simp [watch_directory, List.foldl_append]

theorem transmissions_length_le (dir_path : List Nat) (initial : scan_env)
    (polls : List poll_env) :
    (watch_directory dir_path initial polls).transmissions.length ≤ polls.length := by
  induction polls using List.reverseRecOn with
  | nil => simp [watch_directory]
  | append_singleton polls env ih =>
    rw [watch_directory_snoc, List.length_append]
    unfold watch_iteration
    dsimp only
    split
    · simp only [List.length_append, List.length_singleton]
      omega
    · simp only [List.length_singleton]
      omega

/-- C14: after every iteration of the loop of `watch_directory` the baseline
is the snapshot scanned in that iteration, whatever the transmission came
to; `send_changes_to_server` is called in the iteration, once and with the
change list computed against the previous baseline, if and only if that list
is non-empty; over a run there is at most one call per iteration, and after an
iteration (even one whose transmission failed) an iteration that finds the
directory unchanged sends nothing: a failed transmission is not retried. -/
theorem baseline_follows_scan (dir_path : List Nat) (st : watcher_state) (env : poll_env) :
    (watch_iteration dir_path st env).old_files = scan_with dir_path env.scan ∧
    (compare_directories env.malloc_result st.old_files (scan_with dir_path env.scan) ≠ [] →
      (watch_iteration dir_path st env).transmissions =
        st.transmissions ++
          [{ changes := compare_directories env.malloc_result st.old_files
                (scan_with dir_path env.scan)
             result := (send_changes_to_server env.fs env.net
                (compare_directories env.malloc_result st.old_files
                  (scan_with dir_path env.scan))).2 }]) ∧
    (compare_directories env.malloc_result st.old_files (scan_with dir_path env.scan) = [] →
      (watch_iteration dir_path st env).transmissions = st.transmissions) ∧
    (∀ initial polls,
      (watch_directory dir_path initial (polls ++ [env])).old_files =
        scan_with dir_path env.scan ∧
      (watch_directory dir_path initial polls).transmissions.length ≤ polls.length) ∧
    (∀ next : poll_env, unique_paths (scan_with dir_path env.scan) →
      scan_with dir_path next.scan = scan_with dir_path env.scan →
      (watch_iteration dir_path (watch_iteration dir_path st env) next).transmissions =
        (watch_iteration dir_path st env).transmissions) := by
  refine ⟨rfl, ?_, ?_, ?_, ?_⟩
  · intro h
    have hpos : (compare_directories env.malloc_result st.old_files
        (scan_with dir_path env.scan)).length > 0 := List.length_pos.mpr h
    simp only [watch_iteration, if_pos hpos]
  · intro h
    simp only [watch_iteration, h, List.length_nil, gt_iff_lt, lt_self_iff_false, if_false]
  · intro initial polls
    exact ⟨by rw [watch_directory_snoc]; rfl, transmissions_length_le _ _ _⟩
  · intro next huniq hsame
    have hnil : compare_directories next.malloc_result
        (watch_iteration dir_path st env).old_files (scan_with dir_path next.scan) = [] := by
      rw [hsame]
      exact diff_self_nil _ _ huniq
    simp only [watch_iteration] at hnil ⊢
    simp only [hnil, List.length_nil, gt_iff_lt, lt_self_iff_false, if_false]

set_option maxRecDepth 20000 in
theorem baseline_follows_scan_witness :
    (watch_iteration (cstr "C:\\w") { old_files := [], transmissions := [] }
        (failing_poll one_file_scan)).transmissions =
      [] ++
        [{ changes := compare_directories (some zero_block) []
              (scan_with (cstr "C:\\w") one_file_scan)
           result := (send_changes_to_server example_fs unreachable_net
              (compare_directories (some zero_block) []
                (scan_with (cstr "C:\\w") one_file_scan))).2 }] ∧
    (watch_iteration (cstr "C:\\w")
        (watch_iteration (cstr "C:\\w") { old_files := [], transmissions := [] }
          (failing_poll one_file_scan))
        (example_poll one_file_scan)).transmissions =
      (watch_iteration (cstr "C:\\w") { old_files := [], transmissions := [] }
        (failing_poll one_file_scan)).transmissions :=
  ⟨(baseline_follows_scan (cstr "C:\\w") { old_files := [], transmissions := [] }
      (failing_poll one_file_scan)).2.1 (by decide),
    (baseline_follows_scan (cstr "C:\\w") { old_files := [], transmissions := [] }
      (failing_poll one_file_scan)).2.2.2.2 (example_poll one_file_scan) (by decide) rfl⟩

/-! ## The first change list after a start -/

theorem scan_one_file (dir_path : List Nat) :
    scan_with dir_path one_file_scan = [scanned_entry (normalize_path dir_path) example_entry] := by
  have hdot : ∀ d ∈ dot_entries, is_dot_entry d = true := by decide
  have h3 : is_dot_entry example_entry = false := by decide
  simp only [scan_with, scan_directory, one_file_scan, dot_entries, List.cons_append,
    List.nil_append, count_entries, collect_entries]
  simp [is_dot_entry, c_string, cstr, example_entry]

/-- C15 (counterexample): a Watcher started on a directory that holds the file
`f.txt` and does not change seeds its baseline with that file, computes an
empty first change list and transmits nothing: no `SYNC_CREATE` record is
produced for `f.txt`. -/
theorem restart_computes_no_resync :
    scan_with (cstr "C:\\w") one_file_scan =
      [scanned_entry (normalize_path (cstr "C:\\w")) example_entry] ∧
    compare_directories (some zero_block)
        (watch_directory (cstr "C:\\w") one_file_scan []).old_files
        (scan_with (cstr "C:\\w") one_file_scan) = [] ∧
    (watch_directory (cstr "C:\\w") one_file_scan
        [example_poll one_file_scan]).transmissions = [] ∧
    ¬ (∀ e ∈ scan_with (cstr "C:\\w") one_file_scan,
        ∃ r ∈ compare_directories (some zero_block)
            (watch_directory (cstr "C:\\w") one_file_scan []).old_files
            (scan_with (cstr "C:\\w") one_file_scan),
          r.operation = SYNC_CREATE ∧ r.file = e) := by
  have hscan := scan_one_file (cstr "C:\\w")
  have huniq : unique_paths (scan_with (cstr "C:\\w") one_file_scan) := by
    rw [hscan]
    exact List.pairwise_singleton _ _
  have hnil : compare_directories (some zero_block)
      (watch_directory (cstr "C:\\w") one_file_scan []).old_files
      (scan_with (cstr "C:\\w") one_file_scan) = [] :=
    diff_self_nil _ _ huniq
  refine ⟨hscan, hnil, ?_, ?_⟩
  · have h2 : compare_directories (example_poll one_file_scan).malloc_result
        (scan_with (cstr "C:\\w") one_file_scan)
        (scan_with (cstr "C:\\w") (example_poll one_file_scan).scan) = [] :=
      diff_self_nil _ _ huniq
    simp only [watch_directory, List.foldl_cons, List.foldl_nil, watch_iteration, h2,
      List.length_nil, gt_iff_lt, lt_self_iff_false, if_false]
  · intro hall
    rw [hnil] at hall
    obtain ⟨r, hr, _⟩ := hall (scanned_entry (normalize_path (cstr "C:\\w")) example_entry)
      (by rw [hscan]; exact List.mem_singleton.mpr rfl)
    cases hr

/-- C15 (amended): the baseline of a freshly started Watcher is the scan taken
at startup, so the first change list it computes, and transmits when it is
not empty, is the diff between the startup scan and the scan one interval
later. With an unchanged directory that list is empty and nothing is
transmitted; an entry present at startup and neither newer nor of another
size yields no record; an entry that appeared after startup yields exactly
one record, a `SYNC_CREATE`. -/
theorem first_change_list_since_startup (dir_path : List Nat) (initial : scan_env)
    (env : poll_env) :
    (watch_directory dir_path initial []).old_files = scan_with dir_path initial ∧
    (watch_directory dir_path initial [env]).transmissions =
      (if (compare_directories env.malloc_result (scan_with dir_path initial)
          (scan_with dir_path env.scan)).length > 0 then
        [{ changes := compare_directories env.malloc_result (scan_with dir_path initial)
              (scan_with dir_path env.scan)
           result := (send_changes_to_server env.fs env.net
              (compare_directories env.malloc_result (scan_with dir_path initial)
                (scan_with dir_path env.scan))).2 }]
      else []) ∧
    (unique_paths (scan_with dir_path initial) →
      scan_with dir_path env.scan = scan_with dir_path initial →
      compare_directories env.malloc_result (scan_with dir_path initial)
          (scan_with dir_path env.scan) = [] ∧
        (watch_directory dir_path initial [env]).transmissions = []) ∧
    (∀ block e o, env.malloc_result = some block →
      unique_paths (scan_with dir_path initial) → unique_paths (scan_with dir_path env.scan) →
      e ∈ scan_with dir_path env.scan → o ∈ scan_with dir_path initial →
      _stricmp e.path o.path = 0 →
      ¬ (e.last_modified > o.last_modified ∨ e.size ≠ o.size) →
      records_for e.path (compare_directories env.malloc_result (scan_with dir_path initial)
        (scan_with dir_path env.scan)) = []) ∧
    (∀ block e, env.malloc_result = some block →
      unique_paths (scan_with dir_path env.scan) → e ∈ scan_with dir_path env.scan →
      (∀ o ∈ scan_with dir_path initial, _stricmp e.path o.path ≠ 0) →
      ∃ r, records_for e.path (compare_directories env.malloc_result
          (scan_with dir_path initial) (scan_with dir_path env.scan)) = [r] ∧
        r.operation = SYNC_CREATE ∧ r.file = e) := by
  have htrans : (watch_directory dir_path initial [env]).transmissions =
      (if (compare_directories env.malloc_result (scan_with dir_path initial)
          (scan_with dir_path env.scan)).length > 0 then
        [{ changes := compare_directories env.malloc_result (scan_with dir_path initial)
              (scan_with dir_path env.scan)
           result := (send_changes_to_server env.fs env.net
              (compare_directories env.malloc_result (scan_with dir_path initial)
                (scan_with dir_path env.scan))).2 }]
      else []) := by
    simp only [watch_directory, List.foldl_cons, List.foldl_nil, watch_iteration, List.nil_append]
  refine ⟨rfl, htrans, ?_, ?_, ?_⟩
  · intro huniq hsame
    have hnil : compare_directories env.malloc_result (scan_with dir_path initial)
        (scan_with dir_path env.scan) = [] := by
      rw [hsame]
      exact diff_self_nil _ _ huniq
    refine ⟨hnil, ?_⟩
    rw [htrans, hnil]
    rfl
  · intro block e o hm hold hnew he ho hmatch hsame
    rw [hm]
    have hsig := matched_entry_sig block _ _ e o hold hnew he ho hmatch
    rw [if_neg hsame] at hsig
    exact records_for_eq_nil _ _ hsig
  · intro block e hm hnew he hno
    rw [hm]
    apply records_for_eq_singleton
    rw [map_sig_compare_directories, List.filter_append, filter_new_changes,
      filter_deleted_changes, filter_match_unique _ e hnew he,
      filter_match_absent _ e.path (fun x hx h => hno x hx (stricmp_symm h))]
    simp [new_entry_change, find_match_none _ e.path hno]

theorem first_change_list_since_startup_witness :
    compare_directories (example_poll one_file_scan).malloc_result
        (scan_with (cstr "C:\\w") one_file_scan)
        (scan_with (cstr "C:\\w") (example_poll one_file_scan).scan) = [] ∧
      (watch_directory (cstr "C:\\w") one_file_scan
        [example_poll one_file_scan]).transmissions = [] :=
  (first_change_list_since_startup (cstr "C:\\w") one_file_scan
    (example_poll one_file_scan)).2.2.1
    (by rw [scan_one_file]; exact List.pairwise_singleton _ _) rfl

/-! ## A failed scan inside the watch loop -/

theorem count_entries_of_dots (listing : List find_data)
    (h : ∀ d ∈ listing, is_dot_entry d = true) : count_entries listing = 0 := by
  induction listing with
  | nil => rfl
  | cons d rest ih =>
    rw [count_entries, h d (List.mem_cons_self _ _),
      ih (fun x hx => h x (List.mem_cons_of_mem _ hx))]
    rfl

theorem collect_entries_zero (nd : List Nat) (listing : List find_data) :
    collect_entries nd 0 listing [] = [] := by
  cases listing with
  | nil => rfl
  | cons d rest =>
    rw [collect_entries]
    split <;> simp

theorem new_changes_of_empty_old (new : List file_info) :
    new_changes [] new = new.map (fun n => (SYNC_CREATE, n)) := by
  induction new with
  | nil => rfl
  | cons n rest ih =>
    unfold new_changes at ih ⊢
    simp [new_entry_change, ih]

theorem deleted_changes_of_empty_new (old : List file_info) :
    deleted_changes old [] = old.map (fun o => (SYNC_DELETE, o)) := by
  simp [deleted_changes]

theorem new_changes_of_empty_new (old : List file_info) : new_changes old [] = [] := rfl

theorem deleted_changes_of_empty_old (new : List file_info) : deleted_changes [] new = [] := rfl

/-- C19: a `scan_directory` that cannot open the directory returns the empty
snapshot, as it does for a directory that holds only `.` and `..`, and returns
no status. For every previous snapshot `P`, `compare_directories P []` is one
`SYNC_DELETE` record per entry of `P`, in the order of `P`, and
`compare_directories [] N` is one `SYNC_CREATE` record per entry of `N`, in the
order of `N`. Hence an iteration of the watcher whose scan fails calls
`send_changes_to_server` with a `SYNC_DELETE` for every entry of its
baseline. -/
theorem failed_scan_deletes_baseline :
    (∀ dir_path second_pass malloc_ok, scan_directory dir_path [] second_pass malloc_ok = []) ∧
    (∀ dir_path first_pass second_pass malloc_ok,
      (∀ d ∈ first_pass, is_dot_entry d = true) →
      scan_directory dir_path first_pass second_pass malloc_ok = []) ∧
    (∀ (block : Nat → sync_record) (P : List file_info),
      (compare_directories (some block) P []).map (fun r => (r.operation, r.file)) =
        P.map (fun o => (SYNC_DELETE, o)) ∧
      (compare_directories (some block) P []).length = P.length) ∧
    (∀ (block : Nat → sync_record) (N : List file_info),
      (compare_directories (some block) [] N).map (fun r => (r.operation, r.file)) =
        N.map (fun n => (SYNC_CREATE, n)) ∧
      (compare_directories (some block) [] N).length = N.length) ∧
    (∀ (dir_path : List Nat) (st : watcher_state) (env : poll_env) (block : Nat → sync_record),
      env.scan.first_pass = [] → env.malloc_result = some block → st.old_files ≠ [] →
      ∃ t, (watch_iteration dir_path st env).transmissions = st.transmissions ++ [t] ∧
        t.changes.map (fun r => (r.operation, r.file)) =
          st.old_files.map (fun o => (SYNC_DELETE, o)) ∧
        (watch_iteration dir_path st env).old_files = []) := by
  have hdel : ∀ (block : Nat → sync_record) (P : List file_info),
      (compare_directories (some block) P []).map (fun r => (r.operation, r.file)) =
        P.map (fun o => (SYNC_DELETE, o)) := by
    intro block P
    have := map_sig_compare_directories block P []
    rw [new_changes_of_empty_new, deleted_changes_of_empty_new, List.nil_append] at this
    exact this
  have hcre : ∀ (block : Nat → sync_record) (N : List file_info),
      (compare_directories (some block) [] N).map (fun r => (r.operation, r.file)) =
        N.map (fun n => (SYNC_CREATE, n)) := by
    intro block N
    have := map_sig_compare_directories block [] N
    rw [new_changes_of_empty_old, deleted_changes_of_empty_old, List.append_nil] at this
    exact this
  refine ⟨fun _ _ _ => rfl, ?_, ?_, ?_, ?_⟩
  · intro dir_path first_pass second_pass malloc_ok hdots
    unfold scan_directory
    split
    · rfl
    · split
      · rfl
      · split
        · rfl
        · rw [count_entries_of_dots _ hdots]
          exact collect_entries_zero _ _
  · intro block P
    refine ⟨hdel block P, ?_⟩
    have := congrArg List.length (hdel block P)
    simpa using this
  · intro block N
    refine ⟨hcre block N, ?_⟩
    have := congrArg List.length (hcre block N)
    simpa using this
  · intro dir_path st env block hfail hm hne
    have hscan : scan_with dir_path env.scan = [] := by
      unfold scan_with
      rw [hfail]
      rfl
    have hlen : (compare_directories (some block) st.old_files []).length > 0 := by
      have := congrArg List.length (hdel block st.old_files)
      simp only [List.length_map] at this
      rw [this]
      exact List.length_pos.mpr hne
    refine ⟨{ changes := compare_directories (some block) st.old_files []
              result := (send_changes_to_server env.fs env.net
                (compare_directories (some block) st.old_files [])).2 }, ?_, hdel block _, ?_⟩
    · simp only [watch_iteration, hscan, hm, if_pos hlen]
    · simp only [watch_iteration, hscan]

set_option maxRecDepth 20000 in
theorem failed_scan_deletes_baseline_witness :
    scan_directory (cstr "C:\\w") dot_entries dot_entries true = [] ∧
    ∃ t, (watch_iteration (cstr "C:\\w")
          { old_files := scan_with (cstr "C:\\w") one_file_scan, transmissions := [] }
          (example_poll failed_scan)).transmissions = [] ++ [t] ∧
        t.changes.map (fun r => (r.operation, r.file)) =
          (scan_with (cstr "C:\\w") one_file_scan).map (fun o => (SYNC_DELETE, o)) ∧
        (watch_iteration (cstr "C:\\w")
          { old_files := scan_with (cstr "C:\\w") one_file_scan, transmissions := [] }
          (example_poll failed_scan)).old_files = [] :=
  ⟨failed_scan_deletes_baseline.2.1 (cstr "C:\\w") dot_entries dot_entries true (by decide),
    failed_scan_deletes_baseline.2.2.2.2 (cstr "C:\\w")
      { old_files := scan_with (cstr "C:\\w") one_file_scan, transmissions := [] }
      (example_poll failed_scan) zero_block rfl rfl (by decide)⟩

/-! ## The bound of the diff buffer -/

theorem length_new_changes_le (old new : List file_info) :
    (new_changes old new).length ≤ new.length :=
  List.length_filterMap_le _ _

theorem length_deleted_changes_le (old new : List file_info) :
    (deleted_changes old new).length ≤ old.length := by
  unfold deleted_changes
  rw [List.length_map]
  exact List.length_filter_le _ _

theorem length_detect_new_and_modified (block : Nat → sync_record) (old new : List file_info)
    (changes : List sync_record) :
    (detect_new_and_modified block old new changes).length ≤ changes.length + new.length := by
  rw [detect_new_and_modified_eq, List.length_append, length_stamp]
  have := length_new_changes_le old new
  omega

theorem length_detect_deleted (block : Nat → sync_record) (old new : List file_info)
    (changes : List sync_record) :
    (detect_deleted block new old changes).length ≤ changes.length + old.length := by
  rw [detect_deleted_eq, List.length_append, length_stamp]
  have := length_deleted_changes_le old new
  omega

theorem detect_new_and_modified_append (block : Nat → sync_record) (old new1 new2 : List file_info)
    (changes : List sync_record) :
    detect_new_and_modified block old (new1 ++ new2) changes =
      detect_new_and_modified block old new2 (detect_new_and_modified block old new1 changes) := by
  simp only [detect_new_and_modified_eq, new_changes, List.filterMap_append, stamp_append,
    List.length_append, length_stamp, List.append_assoc]

theorem detect_deleted_append (block : Nat → sync_record) (new old1 old2 : List file_info)
    (changes : List sync_record) :
    detect_deleted block new (old1 ++ old2) changes =
      detect_deleted block new old2 (detect_deleted block new old1 changes) := by
  simp only [detect_deleted_eq, deleted_changes, List.filter_append, List.map_append, stamp_append,
    List.length_append, length_stamp, List.append_assoc]

theorem getElem?_stamp (block : Nat → sync_record) (i k : Nat)
    (xs : List (sync_operation × file_info)) (r : sync_record)
    (h : (stamp block i xs)[k]? = some r) :
    r = store_change block (i + k) r.operation r.file := by
  induction xs generalizing i k with
  | nil => simp [stamp] at h
  | cons x xs ih =>
    cases k with
    | zero =>
      simp only [stamp, List.getElem?_cons_zero, Option.some.injEq] at h
      rw [← h]
      rfl
    | succ k =>
      simp only [stamp, List.getElem?_cons_succ] at h
      have := ih (i + 1) k h
      rw [show i + (k + 1) = i + 1 + k by omega]
      exact this

/-- C21: for every `old_files` and `new_files`, with or without duplicate
paths: one iteration of the first loop adds at most one record, one iteration
of the second loop adds at most one `SYNC_DELETE` record, and neither touches
the records written before; after any number `i` of iterations of the first
loop `change_count ≤ i`, after any number `i` of iterations of the second loop
`change_count ≤ new_count + i`, and on return
`change_count ≤ old_count + new_count`; the record at position `k` of the
result was written to slot `k` of the block, and `k < old_count + new_count`,
the number of records `max_changes` the block is allocated for (line 306,
for a sum in the range of `int`). -/
theorem change_count_within_buffer (block : Nat → sync_record)
    (old_files new_files : List file_info) :
    (∀ n changes, ∃ added,
      detect_new_and_modified block old_files [n] changes = changes ++ added ∧
      added.length ≤ 1) ∧
    (∀ o changes, ∃ added,
      detect_deleted block new_files [o] changes = changes ++ added ∧ added.length ≤ 1 ∧
      ∀ r ∈ added, r.operation = SYNC_DELETE) ∧
    (∀ done todo, new_files = done ++ todo →
      detect_new_and_modified block old_files new_files [] =
        detect_new_and_modified block old_files todo
          (detect_new_and_modified block old_files done []) ∧
      (detect_new_and_modified block old_files done []).length ≤ done.length) ∧
    (∀ done todo, old_files = done ++ todo →
      detect_deleted block new_files old_files
          (detect_new_and_modified block old_files new_files []) =
        detect_deleted block new_files todo
          (detect_deleted block new_files done
            (detect_new_and_modified block old_files new_files [])) ∧
      (detect_deleted block new_files done
          (detect_new_and_modified block old_files new_files [])).length ≤
        new_files.length + done.length) ∧
    (∀ malloc_result,
      (compare_directories malloc_result old_files new_files).length ≤
        old_files.length + new_files.length) ∧
    (∀ k r, (compare_directories (some block) old_files new_files)[k]? = some r →
      r = store_change block k r.operation r.file ∧ k < old_files.length + new_files.length) ∧
    (old_files.length + new_files.length < 2 ^ 31 →
      max_changes (old_files.length : Int) (new_files.length : Int) =
        ((old_files.length + new_files.length : Nat) : Int)) := by
  have hfirst : (detect_new_and_modified block old_files new_files []).length ≤
      new_files.length := by
    have := length_detect_new_and_modified block old_files new_files []
    simpa using this
  have hfinal : (compare_directories (some block) old_files new_files).length ≤
      old_files.length + new_files.length := by
    have := length_detect_deleted block old_files new_files
      (detect_new_and_modified block old_files new_files [])
    show (detect_deleted block new_files old_files
      (detect_new_and_modified block old_files new_files [])).length ≤ _
    omega
  refine ⟨?_, ?_, ?_, ?_, ?_, ?_, ?_⟩
  · intro n changes
    refine ⟨stamp block changes.length (new_changes old_files [n]),
      detect_new_and_modified_eq _ _ _ _, ?_⟩
    rw [length_stamp]
    exact length_new_changes_le old_files [n]
  · intro o changes
    refine ⟨stamp block changes.length (deleted_changes [o] new_files),
      detect_deleted_eq _ _ _ _, ?_, ?_⟩
    · rw [length_stamp]
      exact length_deleted_changes_le [o] new_files
    · intro r hr
      have h := sig_mem_of_mem_stamp _ _ _ _ hr
      rw [mem_deleted_changes] at h
      exact h.1
  · intro done todo hsplit
    refine ⟨by rw [hsplit, detect_new_and_modified_append], ?_⟩
    have := length_detect_new_and_modified block old_files done []
    simpa using this
  · intro done todo hsplit
    refine ⟨?_, ?_⟩
    · conv_lhs => rw [hsplit, detect_deleted_append]
      rw [← hsplit]
    · have := length_detect_deleted block done new_files
        (detect_new_and_modified block old_files new_files [])
      omega
  · intro malloc_result
    cases malloc_result with
    | none => simp [compare_directories]
    | some b =>
      have := length_detect_deleted b old_files new_files
        (detect_new_and_modified b old_files new_files [])
      have h2 := length_detect_new_and_modified b old_files new_files []
      simp only [List.length_nil] at h2
      show (detect_deleted b new_files old_files
        (detect_new_and_modified b old_files new_files [])).length ≤ _
      omega
  · intro k r hk
    constructor
    · have := getElem?_stamp block 0 k _ r (by rw [← compare_directories_eq]; exact hk)
      rw [Nat.zero_add] at this
      exact this
    · have hlt : k < (compare_directories (some block) old_files new_files).length := by
        by_contra hge
        rw [List.getElem?_eq_none (by omega)] at hk
        cases hk
      omega
  · intro hsum
    unfold max_changes
    rw [int_of_bytes_to_bytes_4 _ (by omega) (by omega)]
    push_cast
    rfl

theorem change_count_within_buffer_witness :
    (detect_new_and_modified zero_block [⟨cstr "a.txt", 100, 10, 0⟩]
        [⟨cstr "a.txt", 200, 12, 0⟩, ⟨cstr "a.txt", 300, 12, 0⟩] [] =
      detect_new_and_modified zero_block [⟨cstr "a.txt", 100, 10, 0⟩]
        [⟨cstr "a.txt", 300, 12, 0⟩]
        (detect_new_and_modified zero_block [⟨cstr "a.txt", 100, 10, 0⟩]
          [⟨cstr "a.txt", 200, 12, 0⟩] []) ∧
      (detect_new_and_modified zero_block [⟨cstr "a.txt", 100, 10, 0⟩]
        [⟨cstr "a.txt", 200, 12, 0⟩] []).length ≤
        ([⟨cstr "a.txt", 200, 12, 0⟩] : List file_info).length) ∧
    max_changes (([⟨cstr "a.txt", 100, 10, 0⟩] : List file_info).length : Int)
        (([⟨cstr "a.txt", 200, 12, 0⟩, ⟨cstr "a.txt", 300, 12, 0⟩] : List file_info).length : Int) =
      ((([⟨cstr "a.txt", 100, 10, 0⟩] : List file_info).length +
        ([⟨cstr "a.txt", 200, 12, 0⟩, ⟨cstr "a.txt", 300, 12, 0⟩] : List file_info).length :
          Nat) : Int) :=
  ⟨(change_count_within_buffer zero_block [⟨cstr "a.txt", 100, 10, 0⟩]
      [⟨cstr "a.txt", 200, 12, 0⟩, ⟨cstr "a.txt", 300, 12, 0⟩]).2.2.1
      [⟨cstr "a.txt", 200, 12, 0⟩] [⟨cstr "a.txt", 300, 12, 0⟩] rfl,
    (change_count_within_buffer zero_block [⟨cstr "a.txt", 100, 10, 0⟩]
      [⟨cstr "a.txt", 200, 12, 0⟩, ⟨cstr "a.txt", 300, 12, 0⟩]).2.2.2.2.2.2 (by decide)⟩

end DirectorySync
